import Mathlib

/-!
Verification of the state-extraction and candidate-selection engine of the
yahoo-equity-crawler repository (`src/yahoo_crawler/infrastructure/yahoo/parser.py`).

The Python data values (parsed JSON trees) are shallowly embedded as the
inductive type `JVal`.  Python `dict`s are modelled as insertion-ordered
association lists, `None` as `JVal.null`, and JSON numbers as an exact
mantissa/decimal-exponent pair (the program never performs arithmetic on
numeric field values; they are only stored, unwrapped and compared to `None`
or tested for truthiness, all of which the pair representation models
exactly).  Functions that raise `RuntimeError` in Python are embedded as
`Except String` values; functions whose `None` result means "convention
absent" return `Except String (Option JVal)`.
-/

/-- A JSON-like Python value: `None`, `bool`, number, `str`, `list`, `dict`.
A number `num m e` denotes the exact value `m * 10 ^ e`. -/
inductive JVal where
  | null
  | bool (b : Bool)
  | num (m : Int) (e : Int)
  | str (s : String)
  | arr (xs : List JVal)
  | obj (fs : List (String × JVal))

/-- A path segment inside a JSON tree: a mapping key or a sequence index. -/
inductive JKey where
  | s (s : String)
  | i (n : Nat)

/-- First binding of key `k` in an association list (Python `k in d` / `d[k]`). -/
def jlookup : List (String × JVal) → String → Option JVal
  | [], _ => none
  | (k, v) :: t, key => if k = key then some v else jlookup t key

/-- Python `d.get(k)`: the bound value, or `None` when the key is absent. -/
def dget (fs : List (String × JVal)) (key : String) : JVal :=
  match jlookup fs key with
  | some v => v
  | none => JVal.null

/-- Python `k in d`. -/
def hasKey (fs : List (String × JVal)) (key : String) : Bool :=
  (jlookup fs key).isSome

/-- Python `list(d.values())`. -/
def jvalues (fs : List (String × JVal)) : List JVal :=
  fs.map (fun kv => kv.2)

/-- Python truthiness of an embedded value. -/
def truthy : JVal → Bool
  | .null => false
  | .bool b => b
  | .num m _ => m ≠ 0
  | .str s => s ≠ ""
  | .arr xs => !xs.isEmpty
  | .obj fs => !fs.isEmpty

/-- Python `a or b`: `a` when truthy, else `b`. -/
def pyOr (a b : JVal) : JVal :=
  if truthy a then a else b

/-- Python `x is None`. -/
def isNone : JVal → Bool
  | .null => true
  | _ => false

/-- Python `isinstance(x, dict)`. -/
def isDict : JVal → Bool
  | .obj _ => true
  | _ => false

/-- Python `isinstance(x, (dict, list))`. -/
def isContainer : JVal → Bool
  | .obj _ => true
  | .arr _ => true
  | _ => false

mutual
/-- Structural size of a value; used as a fuel bound for the work-list traversal. -/
def jsize : JVal → Nat
  | .arr xs => 1 + jsizeL xs
  | .obj fs => 1 + jsizeF fs
  | _ => 1
def jsizeL : List JVal → Nat
  | [] => 0
  | v :: t => jsize v + jsizeL t
def jsizeF : List (String × JVal) → Nat
  | [] => 0
  | (_, v) :: t => jsize v + jsizeF t
end

/-- Decimal digits of a natural number, fuel-driven so that it reduces in the kernel. -/
def natDigitsF : Nat → Nat → String
  | 0, _ => ""
  | f + 1, n =>
    if n < 10 then String.singleton (Char.ofNat (48 + n))
    else natDigitsF f (n / 10) ++ String.singleton (Char.ofNat (48 + n % 10))

/-- Decimal rendering of a natural number. -/
def natStr (n : Nat) : String := natDigitsF (n + 1) n

/-- Decimal rendering of an integer. -/
def intStr (i : Int) : String :=
  if i < 0 then "-" ++ natStr i.natAbs else natStr i.natAbs

/-- Rendering of an embedded number `m * 10 ^ e` (model of Python `str` on numbers). -/
def numStr (m e : Int) : String :=
  if e = 0 then intStr m else intStr m ++ "e" ++ intStr e

mutual
/-- Model of Python `repr` on embedded values. -/
def pyRepr : JVal → String
  | .null => "None"
  | .bool b => if b then "True" else "False"
  | .num m e => numStr m e
  | .str s => "\x27" ++ s ++ "\x27"
  | .arr xs => "[" ++ pyReprL xs ++ "]"
  | .obj fs => "\x7b" ++ pyReprF fs ++ "\x7d"
def pyReprL : List JVal → String
  | [] => ""
  | [v] => pyRepr v
  | v :: t => pyRepr v ++ ", " ++ pyReprL t
def pyReprF : List (String × JVal) → String
  | [] => ""
  | [(k, v)] => "\x27" ++ k ++ "\x27: " ++ pyRepr v
  | (k, v) :: t => "\x27" ++ k ++ "\x27: " ++ pyRepr v ++ ", " ++ pyReprF t
end

/-- Model of Python `str(x)`: a string is returned unchanged, every other
value is rendered. -/
def pyStr : JVal → String
  | .str s => s
  | v => pyRepr v

/-! ## Record Normalizer (`parser.py` lines 123-165, 493-514) -/

/-- The normalized output row (`EquityRow` dataclass, `parser.py` lines 15-22). -/
structure EquityRow where
  symbol : String
  name : Option String
  exchange : Option String
  market_cap : JVal
  price : JVal
  currency : JVal

/-- `_first_non_empty(*values)` (`parser.py` lines 510-514): `str` of the first
truthy argument, else `None`. -/
def _first_non_empty : List JVal → Option String
  | [] => none
  | v :: t => if truthy v then some (pyStr v) else _first_non_empty t

/-- `_normalize_value` (`parser.py` lines 493-499): unwrap a mapping's `raw`
entry, else its `fmt` entry, else return the mapping; pass every non-mapping
value through unchanged. -/
def _normalize_value (value : JVal) : JVal :=
  match value with
  | .obj fs =>
    match jlookup fs "raw" with
    | some r => r
    | none =>
      match jlookup fs "fmt" with
      | some f => f
      | none => .obj fs
  | v => v

/-- The price-selection logic of `normalize_equities` (`parser.py` lines
144-152): `regularMarketPrice` if not `None`, else `regularMarketPreviousClose`
if not `None`, else `quote.get("price") or quote.get("lastPrice")`. -/
def _price_value (fs : List (String × JVal)) : JVal :=
  if !isNone (dget fs "regularMarketPrice") then dget fs "regularMarketPrice"
  else if !isNone (dget fs "regularMarketPreviousClose") then dget fs "regularMarketPreviousClose"
  else pyOr (dget fs "price") (dget fs "lastPrice")

/-- One iteration of the `normalize_equities` loop (`parser.py` lines 126-164):
skip non-mappings, skip mappings whose `symbol`/`ticker` lookup is falsy, else
build the row. -/
def normalizeQuote (quote : JVal) : Option EquityRow :=
  match quote with
  | .obj fs =>
    let symbol := pyOr (dget fs "symbol") (dget fs "ticker")
    if truthy symbol then
      some
        { symbol := pyStr symbol
          name := _first_non_empty
            [dget fs "shortName", dget fs "longName", dget fs "name", dget fs "displayName"]
          exchange := _first_non_empty
            [dget fs "exchange", dget fs "fullExchangeName", dget fs "exchangeName"]
          market_cap := _normalize_value (dget fs "marketCap")
          price := _normalize_value (_price_value fs)
          currency := dget fs "currency" }
    else none
  | _ => none

/-- `normalize_equities` (`parser.py` lines 123-165): the rows appended by the
loop, one `Option` per input element. -/
def normalize_equities (quotes : List JVal) : List EquityRow :=
  quotes.filterMap normalizeQuote

/-! ## Claims C1, C5, C6 -/

/-- A field value that is "absent or empty": the `None` that a missing key
yields, or an empty string/sequence/mapping. -/
def emptyOrAbsent : JVal → Bool
  | .null => true
  | .str s => decide (s = "")
  | .arr xs => xs.isEmpty
  | .obj fs => fs.isEmpty
  | _ => false

/-- The price that claim C5's words select: the value of the first key among
`regularMarketPrice`, `regularMarketPreviousClose`, `price`, `lastPrice` that
is present in the quote mapping. -/
def c5_claimed_price (fs : List (String × JVal)) : JVal :=
  match jlookup fs "regularMarketPrice" with
  | some v => v
  | none =>
    match jlookup fs "regularMarketPreviousClose" with
    | some v => v
    | none =>
      match jlookup fs "price" with
      | some v => v
      | none =>
        match jlookup fs "lastPrice" with
        | some v => v
        | none => JVal.null

/-! ## Quote-list scoring (`parser.py` lines 434-458) and claim C3 -/

/-- `pattern` is a prefix of `text`. -/
def hasPref : List Char → List Char → Bool
  | [], _ => true
  | _ :: _, [] => false
  | p :: ps, c :: cs => p = c && hasPref ps cs

/-- `needle` occurs as a contiguous substring of `hay` (Python `needle in hay`). -/
def containsSub (hay needle : List Char) : Bool :=
  match hay with
  | [] => needle.isEmpty
  | _ :: t => hasPref needle hay || containsSub t needle

/-- Python `needle in hay` on strings. -/
def strContains (hay needle : String) : Bool :=
  containsSub hay.data needle.data

/-- `path_str` of `_score_quote_list`: the dot-join of the string-typed path
segments (`parser.py` line 451). -/
def pathStr (path : List JKey) : String :=
  String.intercalate "."
    (path.filterMap (fun k => match k with | .s s => some s | .i _ => none))

/-- One iteration of the scoring loop of `_score_quote_list` (`parser.py`
lines 439-448), accumulating `(symbol_hits, score)`. -/
def _score_step (acc : Nat × Nat) (item : JVal) : Nat × Nat :=
  match item with
  | .obj fs =>
    if truthy (pyOr (dget fs "symbol") (dget fs "ticker")) then
      (acc.1 + 1,
        acc.2 + 2 +
          (if isNone (_normalize_value (dget fs "regularMarketPrice")) then 0 else 1) +
          (if isNone (_normalize_value (dget fs "marketCap")) then 0 else 1))
    else acc
  | _ => acc

/-- `_score_quote_list` (`parser.py` lines 434-458). -/
def _score_quote_list (items : List JVal) (path : List JKey) : Nat :=
  if items.isEmpty then 0
  else
    let hs := items.foldl _score_step (0, 0)
    if hs.1 = 0 then 0
    else
      hs.2 + (if strContains (pathStr path) "Screener" then 10 else 0) +
        (if strContains (pathStr path) "quotes" then 5 else 0) +
        (if strContains (pathStr path) "results" then 2 else 0)

/-- An element "exposes a symbol-like field": it is a mapping whose
`symbol`-or-`ticker` lookup is truthy. -/
def c3_has_symbol (item : JVal) : Bool :=
  match item with
  | .obj fs => truthy (pyOr (dget fs "symbol") (dget fs "ticker"))
  | _ => false

/-- The per-element points of claim C3: `+2` for a symbol-like element, `+1`
more per price/market-cap field that value-normalizes to non-null. -/
def c3_item_points (item : JVal) : Nat :=
  match item with
  | .obj fs =>
    if truthy (pyOr (dget fs "symbol") (dget fs "ticker")) then
      2 + (if isNone (_normalize_value (dget fs "regularMarketPrice")) then 0 else 1) +
        (if isNone (_normalize_value (dget fs "marketCap")) then 0 else 1)
    else 0
  | _ => 0

/-- The score formula exactly as claim C3 states it: path bonuses of `+10` if
any segment contains `"Screener"`, `+5` if any segment is literally
`"quotes"`, `+2` if any segment is literally `"results"`. -/
def c3_claimed_score (items : List JVal) (path : List JKey) : Nat :=
  if items.isEmpty then 0
  else if !items.any c3_has_symbol then 0
  else
    (items.map c3_item_points).sum +
      (if path.any (fun k => match k with | .s s => strContains s "Screener" | .i _ => false)
        then 10 else 0) +
      (if path.any (fun k => match k with | .s s => decide (s = "quotes") | .i _ => false)
        then 5 else 0) +
      (if path.any (fun k => match k with | .s s => decide (s = "results") | .i _ => false)
        then 2 else 0)

/-- The amended score formula: the `"quotes"` and `"results"` bonuses are
substring tests against the dot-joined path (so a segment merely containing
the word also triggers them), exactly like the `"Screener"` bonus. -/
def c3_amended_score (items : List JVal) (path : List JKey) : Nat :=
  if items.isEmpty then 0
  else if !items.any c3_has_symbol then 0
  else
    (items.map c3_item_points).sum +
      (if strContains (pathStr path) "Screener" then 10 else 0) +
      (if strContains (pathStr path) "quotes" then 5 else 0) +
      (if strContains (pathStr path) "results" then 2 else 0)

/-! ## Candidate selection (`parser.py` lines 461-474) and claim C4 -/

/-- A candidate: `(score, path, list_of_records)` (`parser.py` line 461). -/
abbrev Cand := Nat × List JKey × List JVal

/-- The loop of `_pick_best_candidate` (`parser.py` lines 464-473). -/
def pickLoop : Option Cand → List Cand → Option Cand
  | best, [] => best
  | none, c :: rest => pickLoop (some c) rest
  | some b, c :: rest =>
    if c.1 > b.1 then pickLoop (some c) rest
    else if c.1 = b.1 ∧ c.2.2.length > b.2.2.length then pickLoop (some c) rest
    else pickLoop (some b) rest

/-- `_pick_best_candidate` (`parser.py` lines 461-474). -/
def _pick_best_candidate (cs : List Cand) : Option Cand :=
  pickLoop none cs

/-! ## Quote-List Finder (`parser.py` lines 90-120, 168-186, 390-431, 477-507) -/

/-- `_get_path` (`parser.py` lines 390-403): resolve a key/index path,
yielding `None` when a segment is missing or the node has the wrong type. -/
def _get_path : JVal → List JKey → JVal
  | current, [] => current
  | current, JKey.i n :: rest =>
    match current with
    | .arr xs =>
      match xs.get? n with
      | some v => _get_path v rest
      | none => JVal.null
    | _ => JVal.null
  | current, JKey.s k :: rest =>
    match current with
    | .obj fs =>
      match jlookup fs k with
      | some v => _get_path v rest
      | none => JVal.null
    | _ => JVal.null

/-- The per-field candidate test of the `_find_quote_lists` dict branch
(`parser.py` lines 414-424): a list value is scored directly; a dict value
under the key `"quotes"` is scored as its list of values. -/
def dictFieldCandidate (path : List JKey) (kv : String × JVal) : Option Cand :=
  match kv.2 with
  | .arr xs =>
    let s := _score_quote_list xs (path ++ [JKey.s kv.1])
    if s ≠ 0 then some (s, path ++ [JKey.s kv.1], xs) else none
  | .obj gs =>
    if kv.1 = "quotes" then
      let s := _score_quote_list (jvalues gs) (path ++ [JKey.s kv.1])
      if s ≠ 0 then some (s, path ++ [JKey.s kv.1], jvalues gs) else none
    else none
  | _ => none

/-- The work-list loop of `_find_quote_lists` (`parser.py` lines 406-431),
driven by a fuel counter so that it reduces in the kernel; the fuel chosen by
`_find_quote_lists` dominates the loop's iteration count, which is bounded by
the total structural size of the stack (each iteration pops a node and pushes
children of strictly smaller total size). -/
def findLoopF : Nat → List (JVal × List JKey) → List Cand
  | 0, _ => []
  | _ + 1, [] => []
  | fuel + 1, (node, path) :: rest =>
    if path.length > 16 then findLoopF fuel rest
    else
      match node with
      | .obj fs =>
        fs.filterMap (dictFieldCandidate path) ++
          findLoopF fuel
            ((fs.filterMap (fun kv =>
              if isContainer kv.2 then some (kv.2, path ++ [JKey.s kv.1]) else none)).reverse ++ rest)
      | .arr xs =>
        findLoopF fuel
          ((xs.enum.filterMap (fun p =>
            if isContainer p.2 then some (p.2, path ++ [JKey.i p.1]) else none)).reverse ++ rest)
      | _ => findLoopF fuel rest

/-- `_find_quote_lists(data, base_path, max_depth=16)` (`parser.py` lines
406-431). -/
def _find_quote_lists (data : JVal) (base : List JKey) : List Cand :=
  findLoopF (jsize data + 1) [(data, base)]

/-- `_KNOWN_PATHS` (`parser.py` lines 168-186). -/
def _KNOWN_PATHS : List (List JKey) :=
  [[.s "context", .s "dispatcher", .s "stores", .s "ScreenerResultsStore", .s "results", .s "quotes"],
   [.s "context", .s "dispatcher", .s "stores", .s "ScreenerResultsStore", .s "results",
    .s "finance", .s "result", .i 0, .s "quotes"],
   [.s "context", .s "dispatcher", .s "stores", .s "ScreenerResultsStore", .s "quotes"],
   [.s "context", .s "dispatcher", .s "stores", .s "ScreenerResultsStore", .s "results"],
   [.s "context", .s "dispatcher", .s "stores", .s "ScreenerStore", .s "results", .s "quotes"],
   [.s "context", .s "dispatcher", .s "stores", .s "ScreenerStore", .s "quotes"],
   [.s "context", .s "dispatcher", .s "stores", .s "ScreenerStore", .s "results"]]

/-- One iteration of `_candidates_from_known_paths` (`parser.py` lines
479-489): resolve the path, descend into a `"quotes"` entry of a mapping,
turn a mapping into its list of values, then score. -/
def knownPathCandidate (state : JVal) (path : List JKey) : Option Cand :=
  let v0 := _get_path state path
  let vp : JVal × List JKey :=
    match v0 with
    | .obj fs => if hasKey fs "quotes" then (dget fs "quotes", path ++ [JKey.s "quotes"]) else (v0, path)
    | _ => (v0, path)
  let l : Option (List JVal) :=
    match vp.1 with
    | .obj fs => some (jvalues fs)
    | .arr xs => some xs
    | _ => none
  match l with
  | none => none
  | some xs =>
    let s := _score_quote_list xs vp.2
    if s ≠ 0 then some (s, vp.2, xs) else none

/-- `_candidates_from_known_paths` (`parser.py` lines 477-490). -/
def _candidates_from_known_paths (state : JVal) : List Cand :=
  _KNOWN_PATHS.filterMap (knownPathCandidate state)

/-- `_coerce_quotes` (`parser.py` lines 502-507). -/
def _coerce_quotes (quotes : JVal) : List JVal :=
  match quotes with
  | .arr xs => xs
  | .obj fs => jvalues fs
  | _ => []

/-- `_safe_keys` (`parser.py` lines 517-520). -/
def _safe_keys (v : JVal) : List String :=
  match v with
  | .obj fs => (fs.map (fun kv => kv.1)).take 40
  | _ => []

/-- Python `repr` of a list of strings, as interpolated by the error f-string. -/
def pyReprStrList (l : List String) : String :=
  "[" ++ String.intercalate ", " (l.map (fun s => "\x27" ++ s ++ "\x27")) ++ "]"

/-- The message of the `RuntimeError` raised by `extract_quotes`
(`parser.py` lines 114-120). -/
def quotes_not_found_msg (state : JVal) : String :=
  "Quotes list not found. Top-level keys=" ++ pyReprStrList (_safe_keys state) ++ " | stores=" ++
    pyReprStrList (_safe_keys (_get_path state [JKey.s "context", JKey.s "dispatcher", JKey.s "stores"])) ++
    ". Run scripts/debug_state_path.py to inspect candidate paths."

/-- The candidates of the stores-scoped traversal (`parser.py` lines 97-101):
empty when the stores subtree is not a mapping. -/
def strat2_cands (state : JVal) : List Cand :=
  match _get_path state [JKey.s "context", JKey.s "dispatcher", JKey.s "stores"] with
  | .obj fs => _find_quote_lists (.obj fs) [JKey.s "context", JKey.s "dispatcher", JKey.s "stores"]
  | _ => []

/-- The candidates of one props/pageProps-scoped traversal (`parser.py` lines
103-108): empty when the section is neither a mapping nor a sequence. -/
def section_cands (state : JVal) (path : List JKey) : List Cand :=
  match _get_path state path with
  | .obj fs => _find_quote_lists (.obj fs) path
  | .arr xs => _find_quote_lists (.arr xs) path
  | _ => []

/-- `extract_quotes` (`parser.py` lines 90-120): four strategies in order,
then the diagnostic `RuntimeError`. -/
def extract_quotes (state : JVal) : Except String (List JVal) :=
  match _pick_best_candidate (_candidates_from_known_paths state) with
  | some best => .ok (_coerce_quotes (JVal.arr best.2.2))
  | none =>
    match _pick_best_candidate (strat2_cands state) with
    | some best => .ok (_coerce_quotes (JVal.arr best.2.2))
    | none =>
      match _pick_best_candidate (section_cands state [JKey.s "props", JKey.s "pageProps"]) with
      | some best => .ok (_coerce_quotes (JVal.arr best.2.2))
      | none =>
        match _pick_best_candidate (section_cands state [JKey.s "pageProps"]) with
        | some best => .ok (_coerce_quotes (JVal.arr best.2.2))
        | none =>
          match _pick_best_candidate (section_cands state [JKey.s "props"]) with
          | some best => .ok (_coerce_quotes (JVal.arr best.2.2))
          | none =>
            match _pick_best_candidate (_find_quote_lists state []) with
            | some best => .ok (_coerce_quotes (JVal.arr best.2.2))
            | none => .error (quotes_not_found_msg state)

/-! ## Claim C8: the quotes-not-found failure -/

mutual
/-- No mapping anywhere in the value has a truthy `symbol`/`ticker` entry. -/
def symFree : JVal → Bool
  | .obj fs => !(truthy (pyOr (dget fs "symbol") (dget fs "ticker"))) && symFreeF fs
  | .arr xs => symFreeL xs
  | _ => true
def symFreeL : List JVal → Bool
  | [] => true
  | v :: t => symFree v && symFreeL t
def symFreeF : List (String × JVal) → Bool
  | [] => true
  | (_, v) :: t => symFree v && symFreeF t
end

/-- Every element of every list in the value lacks a `symbol`/`ticker` key:
the hypothesis of claim C8's "in particular" sentence, read literally. -/
def elemHasSymKey (x : JVal) : Bool :=
  match x with
  | .obj fs => hasKey fs "symbol" || hasKey fs "ticker"
  | _ => false

mutual
/-- No element of any list anywhere in the value has a `symbol`/`ticker` key. -/
def noListSym : JVal → Bool
  | .obj fs => noListSymF fs
  | .arr xs => noListSymL xs
  | _ => true
def noListSymL : List JVal → Bool
  | [] => true
  | v :: t => !elemHasSymKey v && noListSym v && noListSymL t
def noListSymF : List (String × JVal) → Bool
  | [] => true
  | (_, v) :: t => noListSym v && noListSymF t
end

/-! ## Claim C10: mappings accepted where record lists are expected -/

/-- What the finder does to a literal record list found at a path: score it
and keep it as a candidate iff the score is nonzero. -/
def candOf (xs : List JVal) (path : List JKey) : Option Cand :=
  if _score_quote_list xs path ≠ 0 then some (_score_quote_list xs path, path, xs) else none

/-! ## Balanced-JSON Extractor (`parser.py` lines 353-377) and claim C9 -/

/-- One transition of the brace/string/escape automaton of
`_extract_balanced_json`: the state is `(depth, in_string, escape)`. -/
def jstep (st : Int × Bool × Bool) (c : Char) : Int × Bool × Bool :=
  if st.2.1 then
    if st.2.2 then (st.1, true, false)
    else if c = '\\' then (st.1, true, true)
    else if c = '"' then (st.1, false, false)
    else (st.1, true, false)
  else if c = '"' then (st.1, true, false)
  else if c = '\x7b' then (st.1 + 1, false, false)
  else if c = '\x7d' then (st.1 - 1, false, false)
  else (st.1, false, false)

/-- The scanning loop of `_extract_balanced_json` (`parser.py` lines
354-376): consume characters, tracking depth/string/escape state and the
number `n` of characters consumed so far; return the consumed count at the
`\x7d` that brings the depth to zero, or `none` at the end of the buffer. -/
def balancedLoop : List Char → Int → Bool → Bool → Nat → Option Nat
  | [], _, _, _, _ => none
  | c :: rest, depth, inStr, esc, n =>
    if inStr then
      if esc then balancedLoop rest depth true false (n + 1)
      else if c = '\\' then balancedLoop rest depth true true (n + 1)
      else if c = '"' then balancedLoop rest depth false false (n + 1)
      else balancedLoop rest depth true false (n + 1)
    else if c = '"' then balancedLoop rest depth true false (n + 1)
    else if c = '\x7b' then balancedLoop rest (depth + 1) false false (n + 1)
    else if c = '\x7d' then
      if depth - 1 = 0 then some (n + 1)
      else balancedLoop rest (depth - 1) false false (n + 1)
    else balancedLoop rest depth false false (n + 1)

/-- `_extract_balanced_json` applied to the suffix of the buffer at the start
index (the Python loop over `range(start_index, len(text))`, returning
`text[start_index : index + 1]`). -/
def _extract_balanced_core (u : List Char) : Except String (List Char) :=
  match balancedLoop u 0 false false 0 with
  | some n => .ok (u.take n)
  | none => .error "Unbalanced JSON while parsing root.App.main."

/-- `_extract_balanced_json(text, start_index)` (`parser.py` lines 353-377). -/
def _extract_balanced_json (text : List Char) (start : Nat) : Except String (List Char) :=
  _extract_balanced_core (text.drop start)

/-- The depth of the automaton after consuming `u` from the initial state. -/
def depthAfter (u : List Char) : Int :=
  (u.foldl jstep (0, false, false)).1

/-- The success obligation of the loop specification, parameterized by the
starting state. -/
def loopSpecOk (u : List Char) (d : Int) (i e : Bool) (n : Nat) : Prop :=
  ∀ m, balancedLoop u d i e n = some m →
    ∃ k, 1 ≤ k ∧ k ≤ u.length ∧ m = n + k ∧ u.get? (k - 1) = some '\x7d' ∧
      ((u.take k).foldl jstep (d, i, e)).1 = 0 ∧
      ∀ j, 1 ≤ j → j < k → ((u.take j).foldl jstep (d, i, e)).1 ≠ 0

/-- The failure obligation of the loop specification. -/
def loopSpecNone (u : List Char) (d : Int) (i e : Bool) (n : Nat) : Prop :=
  balancedLoop u d i e n = none →
    ∀ k, 1 ≤ k → k ≤ u.length → ((u.take k).foldl jstep (d, i, e)).1 ≠ 0

/-! ## Text scanning primitives for the State Locator -/

/-- Python regex `\s` (ASCII model). -/
def isPySpace (c : Char) : Bool :=
  c = ' ' || c = '\t' || c = '\n' || c = '\r' || c = '\x0b' || c = '\x0c'

/-- Python `str.strip()` (ASCII-whitespace model). -/
def strip (cs : List Char) : List Char :=
  ((cs.dropWhile isPySpace).reverse.dropWhile isPySpace).reverse

/-- Case-insensitive prefix test (for regexes compiled with `IGNORECASE`). -/
def hasPrefCI : List Char → List Char → Bool
  | [], _ => true
  | _ :: _, [] => false
  | p :: ps, c :: cs => p.toLower = c.toLower && hasPrefCI ps cs

/-- `re.search` driver: try a matcher at every suffix, left to right, and
return the index and payload of the leftmost match. -/
def scanFirst {α : Type} (f : List Char → Option α) : List Char → Option (Nat × α)
  | [] =>
    match f [] with
    | some a => some (0, a)
    | none => none
  | c :: rest =>
    match f (c :: rest) with
    | some a => some (0, a)
    | none =>
      match scanFirst f rest with
      | some (i, a) => some (i + 1, a)
      | none => none

/-- Python `text.find(ch, start)` (absolute index, `none` for `-1`). -/
def findCharFrom (text : List Char) (ch : Char) (start : Nat) : Option Nat :=
  match scanFirst (fun u => match u with
    | x :: _ => if x = ch then some () else none
    | [] => none) (text.drop start) with
  | some (j, _) => some (start + j)
  | none => none

/-- Matcher for the regex `LITERAL\s*=\s*` at the head of the input: returns
the number of characters matched (the regex match's length). -/
def matchAssignAt (pat : List Char) (cs : List Char) : Option Nat :=
  if hasPref pat cs then
    let r1 := cs.drop pat.length
    let w1 := (r1.takeWhile isPySpace).length
    match r1.drop w1 with
    | '=' :: r2 => some (pat.length + w1 + 1 + (r2.takeWhile isPySpace).length)
    | _ => none
  else none

/-- `re.search(r"LITERAL\s*=\s*", page)`: the end index of the leftmost
match, or `none` when the assignment marker is absent. -/
def searchAssignEnd (pat : List Char) (page : List Char) : Option Nat :=
  match scanFirst (matchAssignAt pat) page with
  | some (i, len) => some (i + len)
  | none => none

/-! ## JSON parsing (model of Python `json.loads`) -/

/-- JSON whitespace. -/
def isJsonWs (c : Char) : Bool :=
  c = ' ' || c = '\t' || c = '\n' || c = '\r'

/-- Skip JSON whitespace. -/
def skipWs (cs : List Char) : List Char :=
  cs.dropWhile isJsonWs

/-- ASCII digit test. -/
def isDigit (c : Char) : Bool :=
  48 ≤ c.toNat && c.toNat ≤ 57

/-- Digit value. -/
def digitVal (c : Char) : Nat := c.toNat - 48

/-- Hexadecimal digit value. -/
def hexVal (c : Char) : Option Nat :=
  if 48 ≤ c.toNat && c.toNat ≤ 57 then some (c.toNat - 48)
  else if 97 ≤ c.toNat && c.toNat ≤ 102 then some (c.toNat - 87)
  else if 65 ≤ c.toNat && c.toNat ≤ 70 then some (c.toNat - 55)
  else none

/-- Value of a digit run. -/
def digitsVal (ds : List Char) : Nat :=
  ds.foldl (fun a c => a * 10 + digitVal c) 0

/-- JSON string body parser (after the opening quote), with escape handling;
strict about unescaped control characters, like Python `json.loads`. -/
def parseStrF : Nat → List Char → List Char → Option (List Char × List Char)
  | 0, _, _ => none
  | fuel + 1, cs, acc =>
    match cs with
    | [] => none
    | '"' :: r => some (acc.reverse, r)
    | '\\' :: esc :: r =>
      match esc with
      | '"' => parseStrF fuel r ('"' :: acc)
      | '\\' => parseStrF fuel r ('\\' :: acc)
      | '/' => parseStrF fuel r ('/' :: acc)
      | 'b' => parseStrF fuel r ('\x08' :: acc)
      | 'f' => parseStrF fuel r ('\x0c' :: acc)
      | 'n' => parseStrF fuel r ('\n' :: acc)
      | 'r' => parseStrF fuel r ('\r' :: acc)
      | 't' => parseStrF fuel r ('\t' :: acc)
      | 'u' =>
        match r with
        | h1 :: h2 :: h3 :: h4 :: rr =>
          match hexVal h1, hexVal h2, hexVal h3, hexVal h4 with
          | some a, some b, some c, some d =>
            parseStrF fuel rr (Char.ofNat (((a * 16 + b) * 16 + c) * 16 + d) :: acc)
          | _, _, _, _ => none
        | _ => none
      | _ => none
    | c :: r => if c.toNat < 32 then none else parseStrF fuel r (c :: acc)

/-- JSON fraction part: `.digits`, or nothing. -/
def parseFrac : List Char → Option (Nat × Nat × List Char)
  | '.' :: r =>
    let ds := r.takeWhile isDigit
    if ds.isEmpty then none
    else some (digitsVal ds, ds.length, r.drop ds.length)
  | cs => some (0, 0, cs)

/-- JSON exponent part: `[eE][+-]?digits`, or nothing. -/
def parseExp (cs : List Char) : Option (Int × List Char) :=
  match cs with
  | c :: r =>
    if c = 'e' || c = 'E' then
      let sr : Int × List Char :=
        match r with
        | '+' :: rr => (1, rr)
        | '-' :: rr => (-1, rr)
        | _ => (1, r)
      let ds := sr.2.takeWhile isDigit
      if ds.isEmpty then none
      else some (sr.1 * (digitsVal ds : Int), sr.2.drop ds.length)
    else some (0, c :: r)
  | [] => some (0, [])

/-- JSON number parser (strict grammar: `-? (0 | [1-9][0-9]*) frac? exp?`),
yielding the exact value as a mantissa/decimal-exponent pair. -/
def parseNumber (cs : List Char) : Option (JVal × List Char) :=
  let sgn : Bool × List Char :=
    match cs with
    | '-' :: r => (true, r)
    | _ => (false, cs)
  match sgn.2 with
  | '0' :: r1 =>
    (match r1 with
     | c :: _ =>
       if isDigit c then none
       else
         match parseFrac r1 with
         | none => none
         | some (fv, fc, r2) =>
           match parseExp r2 with
           | none => none
           | some (ev, r3) =>
             let m0 : Int := (fv : Int)
             some (.num (if sgn.1 then -m0 else m0) (ev - fc), r3)
     | [] => some (.num 0 0, []))
  | c :: _ =>
    if !isDigit c then none
    else
      let ds := sgn.2.takeWhile isDigit
      let r1 := sgn.2.drop ds.length
      match parseFrac r1 with
      | none => none
      | some (fv, fc, r2) =>
        match parseExp r2 with
        | none => none
        | some (ev, r3) =>
          let m0 : Int := (digitsVal ds * 10 ^ fc + fv : Nat)
          some (.num (if sgn.1 then -m0 else m0) (ev - fc), r3)
  | [] => none

/-- Python duplicate-key object semantics: the later value wins, the earlier
position is kept. -/
def objCombine (k : String) (v : JVal) (fs : List (String × JVal)) : List (String × JVal) :=
  match jlookup fs k with
  | some v2 => (k, v2) :: (fs.filter (fun kv => kv.1 != k) : List (String × JVal))
  | none => (k, v) :: fs

mutual
/-- JSON value parser (fuel-driven recursive descent). -/
def parseValF : Nat → List Char → Option (JVal × List Char)
  | 0, _ => none
  | fuel + 1, cs =>
    match skipWs cs with
    | 'n' :: 'u' :: 'l' :: 'l' :: r => some (.null, r)
    | 't' :: 'r' :: 'u' :: 'e' :: r => some (.bool true, r)
    | 'f' :: 'a' :: 'l' :: 's' :: 'e' :: r => some (.bool false, r)
    | '"' :: r =>
      match parseStrF (r.length + 1) r [] with
      | some (s, rest) => some (.str (String.mk s), rest)
      | none => none
    | '[' :: r =>
      (match skipWs r with
       | ']' :: rr => some (.arr [], rr)
       | _ =>
         match parseArrF fuel r with
         | some (xs, rest) => some (.arr xs, rest)
         | none => none)
    | '\x7b' :: r =>
      (match skipWs r with
       | '\x7d' :: rr => some (.obj [], rr)
       | _ =>
         match parseObjF fuel r with
         | some (fs, rest) => some (.obj fs, rest)
         | none => none)
    | cs2 => parseNumber cs2
/-- JSON array elements parser (after `[`, at least one element). -/
def parseArrF : Nat → List Char → Option (List JVal × List Char)
  | 0, _ => none
  | fuel + 1, cs =>
    match parseValF fuel cs with
    | none => none
    | some (v, rest) =>
      match skipWs rest with
      | ',' :: r2 =>
        (match parseArrF fuel r2 with
         | some (xs, rest2) => some (v :: xs, rest2)
         | none => none)
      | ']' :: r2 => some ([v], r2)
      | _ => none
/-- JSON object members parser (after the opening brace, at least one pair). -/
def parseObjF : Nat → List Char → Option (List (String × JVal) × List Char)
  | 0, _ => none
  | fuel + 1, cs =>
    match skipWs cs with
    | '"' :: r =>
      (match parseStrF (r.length + 1) r [] with
       | none => none
       | some (k, rest) =>
         match skipWs rest with
         | ':' :: r2 =>
           (match parseValF fuel r2 with
            | none => none
            | some (v, rest2) =>
              match skipWs rest2 with
              | ',' :: r3 =>
                (match parseObjF fuel r3 with
                 | some (fs, rest3) => some (objCombine (String.mk k) v fs, rest3)
                 | none => none)
              | '\x7d' :: r3 => some ([(String.mk k, v)], r3)
              | _ => none)
         | _ => none)
    | _ => none
end

/-- `json.loads`: parse one JSON document, requiring only trailing
whitespace after it; `none` models `JSONDecodeError`. -/
def jloads (cs : List Char) : Option JVal :=
  match parseValF (2 * cs.length + 8) cs with
  | some (v, rest) => if (skipWs rest).isEmpty then some v else none
  | none => none

/-- `_loads_json(payload, source)` (`parser.py` lines 380-387); the decode
error's exception detail is not modelled. -/
def _loads_json (payload : List Char) (source : String) : Except String JVal :=
  match jloads payload with
  | none => .error ("Failed to decode " ++ source ++ " JSON.")
  | some v =>
    match v with
    | .obj fs => .ok (.obj fs)
    | _ => .error (source ++ " JSON did not produce a dict.")

/-! ## Script-Tag Scanner (`parser.py` lines 523-540) -/

/-- A character allowed in an attribute name (`[a-zA-Z0-9_-]`). -/
def isAttrNameChar (c : Char) : Bool :=
  (97 ≤ c.toNat && c.toNat ≤ 122) || (65 ≤ c.toNat && c.toNat ≤ 90) ||
    (48 ≤ c.toNat && c.toNat ≤ 57) || c.toNat = 95 || c.toNat = 45

/-- Matcher for one `name\s*=\s*"value"` attribute (with quote character `q`)
at the head of the input: the pair and the match length. -/
def matchAttrAt (q : Char) (cs : List Char) : Option ((String × String) × Nat) :=
  let name := cs.takeWhile isAttrNameChar
  if name.isEmpty then none
  else
    let r1 := cs.drop name.length
    let w1 := (r1.takeWhile isPySpace).length
    match r1.drop w1 with
    | '=' :: r2 =>
      let w2 := (r2.takeWhile isPySpace).length
      match r2.drop w2 with
      | qc :: r3 =>
        if qc = q then
          let v := r3.takeWhile (fun c => c != q)
          if v.length < r3.length then
            some ((String.mk name, String.mk v),
              name.length + w1 + 1 + w2 + 1 + v.length + 1)
          else none
        else none
      | [] => none
    | _ => none

/-- `re.finditer` over one attribute pattern: all non-overlapping matches,
left to right. -/
def iterAttrsF (q : Char) : Nat → List Char → List (String × String)
  | 0, _ => []
  | fuel + 1, cs =>
    match scanFirst (matchAttrAt q) cs with
    | none => []
    | some (i, (kv, len)) => kv :: iterAttrsF q fuel (cs.drop (i + len))

/-- Python `dict` assignment `d[k] = v`: overwrite in place or append. -/
def insertOverwrite (d : List (String × String)) (kv : String × String) : List (String × String) :=
  match d with
  | [] => [kv]
  | (k, v) :: t => if k = kv.1 then (k, kv.2) :: t else (k, v) :: insertOverwrite t kv

/-- `_parse_attrs` (`parser.py` lines 534-540): a double-quote pass then a
single-quote pass into one dict. -/
def _parse_attrs (attrsTxt : List Char) : List (String × String) :=
  let d1 := (iterAttrsF '"' (attrsTxt.length + 1) attrsTxt).foldl insertOverwrite []
  (iterAttrsF '\x27' (attrsTxt.length + 1) attrsTxt).foldl insertOverwrite d1

/-- Matcher for the case-insensitive `<script(attrs)>(body)</script>` regex at
the head of the input: attribute text, raw body, and the match length. -/
def matchScriptTagAt (cs : List Char) : Option (List Char × List Char × Nat) :=
  if hasPrefCI "<script".data cs then
    let rest := cs.drop 7
    let attrsTxt := rest.takeWhile (fun c => c != '>')
    if attrsTxt.length < rest.length then
      let afterGt := rest.drop (attrsTxt.length + 1)
      match scanFirst (fun u => if hasPrefCI "</script>".data u then some () else none) afterGt with
      | some (j, _) => some (attrsTxt, afterGt.take j, 7 + attrsTxt.length + 1 + j + 9)
      | none => none
    else none
  else none

/-- The `finditer` loop of `_iter_script_tags` (`parser.py` lines 523-531),
yielding `(parsed attributes, stripped body)` pairs. -/
def iterTagsF : Nat → List Char → List (List (String × String) × List Char)
  | 0, _ => []
  | fuel + 1, cs =>
    match scanFirst matchScriptTagAt cs with
    | none => []
    | some (i, (attrsTxt, body, mlen)) =>
      (_parse_attrs attrsTxt, strip body) :: iterTagsF fuel (cs.drop (i + mlen))

/-- `_iter_script_tags` (`parser.py` lines 523-531). -/
def _iter_script_tags (page : List Char) : List (List (String × String) × List Char) :=
  iterTagsF (page.length + 1) page

/-! ## State Locator (`parser.py` lines 54-87, 189-264, 267-350) -/

/-- The body captured by the `__NEXT_DATA__` script regex (`parser.py` lines
212-216): leftmost `<script` whose attribute region (before the first `>`)
contains `id="__NEXT_DATA__"`, with the lazily-captured body ending at the
first `</script>`. -/
def findNextDataBody (page : List Char) : Option (List Char) :=
  match scanFirst (fun cs =>
    if hasPref "<script".data cs then
      let rest := cs.drop 7
      let attrsTxt := rest.takeWhile (fun c => c != '>')
      if attrsTxt.length < rest.length && containsSub attrsTxt "id=\"__NEXT_DATA__\"".data then
        let afterGt := rest.drop (attrsTxt.length + 1)
        match scanFirst (fun u => if hasPref "</script>".data u then some () else none) afterGt with
        | some (j, _) => some (afterGt.take j)
        | none => none
      else none
    else none) page with
  | some (_, body) => some body
  | none => none

/-- `_extract_next_data_state` (`parser.py` lines 211-222). -/
def _extract_next_data_state (page : List Char) : Except String (Option JVal) :=
  match findNextDataBody page with
  | none => .ok none
  | some body =>
    let t := strip body
    if t.isEmpty then .error "__NEXT_DATA__ script tag found but empty."
    else
      match _loads_json t "__NEXT_DATA__" with
      | .error e => .error e
      | .ok v => .ok (some v)

/-- `_extract_preloaded_state` (`parser.py` lines 200-208). -/
def _extract_preloaded_state (page : List Char) : Except String (Option JVal) :=
  match searchAssignEnd "__PRELOADED_STATE__".data page with
  | none => .ok none
  | some e =>
    match findCharFrom page '\x7b' e with
    | none => .error "__PRELOADED_STATE__ found but JSON object not found."
    | some start =>
      match _extract_balanced_json page start with
      | .error msg => .error msg
      | .ok js =>
        match _loads_json js "__PRELOADED_STATE__" with
        | .error msg => .error msg
        | .ok v => .ok (some v)

/-- `_extract_root_app_state` (`parser.py` lines 189-197); the regex
`root\.App\.main\s*=\s*` matches the literal dotted name. -/
def _extract_root_app_state (page : List Char) : Except String (Option JVal) :=
  match searchAssignEnd "root.App.main".data page with
  | none => .ok none
  | some e =>
    match findCharFrom page '\x7b' e with
    | none => .error "root.App.main found but JSON object not found."
    | some start =>
      match _extract_balanced_json page start with
      | .error msg => .error msg
      | .ok js =>
        match _loads_json js "root.App.main" with
        | .error msg => .error msg
        | .ok v => .ok (some v)

/-- `_extract_yahoo_context_state` (`parser.py` lines 225-233). -/
def _extract_yahoo_context_state (page : List Char) : Except String (Option JVal) :=
  match searchAssignEnd "YAHOO.context".data page with
  | none => .ok none
  | some e =>
    match findCharFrom page '\x7b' e with
    | none => .error "YAHOO.context found but JSON object not found."
    | some start =>
      match _extract_balanced_json page start with
      | .error msg => .error msg
      | .ok js =>
        match _loads_json js "YAHOO.context" with
        | .error msg => .error msg
        | .ok v => .ok (some v)

/-- One entry of `_extract_application_json_scripts` (`parser.py` lines
280-292): the tag's attributes, the parsed payload, and the optional
re-parsed `body` entry (a parsed value, or the raw string when its re-parse
fails). -/
structure SvelteEntry where
  attrs : List (String × String)
  payload : JVal
  body : Option JVal

/-- Python `attrs.get(key, dflt)`. -/
def attrGet (attrs : List (String × String)) (key dflt : String) : String :=
  match attrs.find? (fun kv => kv.1 == key) with
  | some kv => kv.2
  | none => dflt

/-- `_extract_application_json_scripts` (`parser.py` lines 267-293). -/
def _extract_application_json_scripts (page : List Char) : List SvelteEntry :=
  (_iter_script_tags page).filterMap (fun t =>
    if t.2.isEmpty then none
    else
      let stype := attrGet t.1 "type" ""
      if stype = "application/json" || strContains stype "application/json" then
        match jloads t.2 with
        | none => none
        | some payload =>
          some { attrs := t.1
                 payload := payload
                 body :=
                   match payload with
                   | .obj fs =>
                     (match jlookup fs "body" with
                      | some (.str s) =>
                        (match strip s.data with
                         | '\x7b' :: bs =>
                           (match jloads ('\x7b' :: bs) with
                            | some b => some b
                            | none => some (.str (String.mk ('\x7b' :: bs))))
                         | '[' :: bs =>
                           (match jloads ('[' :: bs) with
                            | some b => some b
                            | none => some (.str (String.mk ('[' :: bs))))
                         | _ => none)
                      | _ => none)
                   | _ => none }
      else none)

/-- `_score_state` (`parser.py` lines 341-350). -/
def _score_state (fs : List (String × JVal)) : Nat :=
  let base := (if hasKey fs "quotes" then 5 else 0) + (if hasKey fs "finance" then 3 else 0)
  let cands := _find_quote_lists (.obj fs) []
  if cands.isEmpty then base else base + (cands.map (fun c => c.1)).foldl max 0

/-- The loop of `_pick_best_state` (`parser.py` lines 327-338): highest
positive score wins, first found kept on ties. -/
def pickStateLoop : Option (Nat × List (String × JVal)) → List SvelteEntry →
    Option (Nat × List (String × JVal))
  | best, [] => best
  | best, entry :: rest =>
    let candidate : JVal :=
      match entry.body with
      | some (.obj bs) => .obj bs
      | _ => entry.payload
    match candidate with
    | .obj fs =>
      if _score_state fs ≤ 0 then pickStateLoop best rest
      else
        match best with
        | none => pickStateLoop (some (_score_state fs, fs)) rest
        | some b =>
          if _score_state fs > b.1 then pickStateLoop (some (_score_state fs, fs)) rest
          else pickStateLoop best rest
    | _ => pickStateLoop best rest

/-- `_pick_best_state` (`parser.py` lines 327-338). -/
def _pick_best_state (entries : List SvelteEntry) : Option JVal :=
  match pickStateLoop none entries with
  | some b => some (.obj b.2)
  | none => none

/-- The dict a `SvelteEntry` denotes when packaged under the synthetic
`__sveltekit__` wrapper. -/
def entryToJVal (e : SvelteEntry) : JVal :=
  .obj ([("attrs", .obj (e.attrs.map (fun kv => (kv.1, JVal.str kv.2)))), ("payload", e.payload)] ++
    (match e.body with | some b => [("body", b)] | none => []))

/-- `_extract_sveltekit_state` (`parser.py` lines 236-245). -/
def _extract_sveltekit_state (page : List Char) : Option JVal :=
  let entries := _extract_application_json_scripts page
  if entries.isEmpty then none
  else
    match _pick_best_state entries with
    | some best => some best
    | none => some (.obj [("__sveltekit__", .arr (entries.map entryToJVal))])

/-- The keyword set of `_extract_script_json_heuristic` (`parser.py` line 249). -/
def heuristicKeywords : List String :=
  ["quotes", "quote", "screener", "equity", "finance", "results"]

/-- The loop of `_extract_script_json_heuristic` (`parser.py` lines 248-264):
first keyword-bearing script body whose first brace-extraction parses; every
`RuntimeError` is caught and the scan continues. -/
def heuristicLoop : List (List (String × String) × List Char) → Option JVal
  | [] => none
  | (_, body) :: rest =>
    if body.isEmpty then heuristicLoop rest
    else if !(heuristicKeywords.any (fun kw => containsSub body kw.data)) then heuristicLoop rest
    else
      match findCharFrom body '\x7b' 0 with
      | none => heuristicLoop rest
      | some start =>
        match _extract_balanced_json body start with
        | .error _ => heuristicLoop rest
        | .ok js =>
          match _loads_json js "script-heuristic" with
          | .error _ => heuristicLoop rest
          | .ok v => some v

/-- `_extract_script_json_heuristic` (`parser.py` lines 248-264). -/
def _extract_script_json_heuristic (page : List Char) : Option JVal :=
  heuristicLoop (_iter_script_tags page)

/-- The artifact path of `_save_parse_fail_state` (`parser.py` lines
561-581); the filesystem write and the timestamp are outside the model. -/
def _artifact_path : String := "artifacts/parse_fail_state_TIMESTAMP.json"

/-- The final stage of `extract_embedded_state`: the unscoped keyword
heuristic, else the fatal "state not found" error (`parser.py` lines 78-87). -/
def _state_stage_heuristic (page : List Char) : Except String JVal :=
  match _extract_script_json_heuristic page with
  | some st => .ok st
  | none =>
    .error ("Embedded state not found (no __NEXT_DATA__, __PRELOADED_STATE__, root.App.main, " ++
      "YAHOO.context, or SvelteKit JSON). Saved parse artifacts at " ++ _artifact_path)

/-- Stage 5 of `extract_embedded_state`: `YAHOO.context`, accepted only when
it scores positively (`parser.py` lines 74-76); `_loads_json` only returns
mappings, so the non-mapping arm is unreachable. -/
def _state_stage_yahoo (page : List Char) : Except String JVal :=
  match _extract_yahoo_context_state page with
  | .error e => .error e
  | .ok (some (.obj fs)) =>
    if 0 < _score_state fs then .ok (.obj fs) else _state_stage_heuristic page
  | .ok (some _) => _state_stage_heuristic page
  | .ok none => _state_stage_heuristic page

/-- Stage 4 of `extract_embedded_state`: the SvelteKit JSON scripts
(`parser.py` lines 70-72). -/
def _state_stage_sveltekit (page : List Char) : Except String JVal :=
  match _extract_sveltekit_state page with
  | some st => .ok st
  | none => _state_stage_yahoo page

/-- Stage 3 of `extract_embedded_state`: `root.App.main` (`parser.py` lines
66-68). -/
def _state_stage_rootapp (page : List Char) : Except String JVal :=
  match _extract_root_app_state page with
  | .error e => .error e
  | .ok (some st) => .ok st
  | .ok none => _state_stage_sveltekit page

/-- Stage 2 of `extract_embedded_state`: `__PRELOADED_STATE__` (`parser.py`
lines 62-64). -/
def _state_stage_preloaded (page : List Char) : Except String JVal :=
  match _extract_preloaded_state page with
  | .error e => .error e
  | .ok (some st) => .ok st
  | .ok none => _state_stage_rootapp page

/-- `extract_embedded_state` (`parser.py` lines 54-87): the six-stage
priority chain (`_collect_script_info` and the artifact write are pure
diagnostics with no effect on the returned state and are not modelled). -/
def extract_embedded_state (page : List Char) : Except String JVal :=
  match _extract_next_data_state page with
  | .error e => .error e
  | .ok (some st) => .ok st
  | .ok none => _state_stage_preloaded page

/-- The total structural size of a traversal stack: the loop measure of
`_find_quote_lists`. -/
def stackSize (stack : List (JVal × List JKey)) : Nat :=
  (stack.map (fun e => jsize e.1)).sum

/-! ## Theorems -/

/-! ## Lemmas: nonemptiness of rendered strings -/

theorem data_eq_nil_iff (s : String) : s.data = [] ↔ s = "" := by
  cases s with
  | mk l =>
    constructor
    · intro h
      calc String.mk l = String.mk [] := by rw [show l = [] from h]
        _ = "" := rfl
    · intro h
      exact congrArg String.data h

theorem append_ne_empty_left (a b : String) (h : a ≠ "") : a ++ b ≠ "" := by
  intro h2
  have h3 : a.data ++ b.data = [] := (data_eq_nil_iff (a ++ b)).mpr h2
  exact h ((data_eq_nil_iff a).mp (List.append_eq_nil.mp h3).1)

theorem append_ne_empty_right (a b : String) (h : b ≠ "") : a ++ b ≠ "" := by
  intro h2
  have h3 : a.data ++ b.data = [] := (data_eq_nil_iff (a ++ b)).mpr h2
  exact h ((data_eq_nil_iff b).mp (List.append_eq_nil.mp h3).2)

theorem singleton_ne_empty (c : Char) : String.singleton c ≠ "" := by
  intro h
  have h2 : [c] = [] := (data_eq_nil_iff (String.singleton c)).mpr h
  exact List.noConfusion h2

theorem natDigitsF_succ_ne_empty (f n : Nat) : natDigitsF (f + 1) n ≠ "" := by
  unfold natDigitsF
  split
  · exact singleton_ne_empty _
  · exact append_ne_empty_right _ _ (singleton_ne_empty _)

theorem natStr_ne_empty (n : Nat) : natStr n ≠ "" := natDigitsF_succ_ne_empty n n

theorem intStr_ne_empty (i : Int) : intStr i ≠ "" := by
  unfold intStr
  split
  · exact append_ne_empty_left _ _ (by decide)
  · exact natStr_ne_empty i.natAbs

theorem numStr_ne_empty (m e : Int) : numStr m e ≠ "" := by
  unfold numStr
  split
  · exact intStr_ne_empty m
  · exact append_ne_empty_left _ _ (append_ne_empty_left _ _ (intStr_ne_empty m))

theorem pyRepr_ne_empty (v : JVal) : pyRepr v ≠ "" := by
  cases v with
  | null => exact by decide
  | bool b => cases b <;> exact by decide
  | num m e => exact numStr_ne_empty m e
  | str s => exact append_ne_empty_left _ _ (append_ne_empty_left _ _ (by decide))
  | arr xs => exact append_ne_empty_left _ _ (append_ne_empty_left _ _ (by decide))
  | obj fs => exact append_ne_empty_left _ _ (append_ne_empty_left _ _ (by decide))

theorem pyStr_ne_empty_of_truthy (v : JVal) (h : truthy v = true) : pyStr v ≠ "" := by
  cases v with
  | str s => exact of_decide_eq_true h
  | null => exact pyRepr_ne_empty JVal.null
  | bool b => exact pyRepr_ne_empty (JVal.bool b)
  | num m e => exact pyRepr_ne_empty (JVal.num m e)
  | arr xs => exact pyRepr_ne_empty (JVal.arr xs)
  | obj fs => exact pyRepr_ne_empty (JVal.obj fs)

theorem truthy_eq_false_of_emptyOrAbsent (v : JVal) (h : emptyOrAbsent v = true) :
    truthy v = false := by
  cases v with
  | null => rfl
  | bool b => exact absurd h (by simp [emptyOrAbsent])
  | num m e => exact absurd h (by simp [emptyOrAbsent])
  | str s =>
    have hs : s = "" := of_decide_eq_true h
    simp [truthy, hs]
  | arr xs => simp [truthy, emptyOrAbsent] at h ⊢; exact h
  | obj fs => simp [truthy, emptyOrAbsent] at h ⊢; exact h

theorem normalizeQuote_obj_some (fs : List (String × JVal)) (row : EquityRow)
    (h : normalizeQuote (JVal.obj fs) = some row) :
    truthy (pyOr (dget fs "symbol") (dget fs "ticker")) = true ∧
    row = { symbol := pyStr (pyOr (dget fs "symbol") (dget fs "ticker"))
            name := _first_non_empty
              [dget fs "shortName", dget fs "longName", dget fs "name", dget fs "displayName"]
            exchange := _first_non_empty
              [dget fs "exchange", dget fs "fullExchangeName", dget fs "exchangeName"]
            market_cap := _normalize_value (dget fs "marketCap")
            price := _normalize_value (_price_value fs)
            currency := dget fs "currency" } := by
  simp only [normalizeQuote] at h
  split at h
  · rename_i htr
    cases h
    exact ⟨htr, rfl⟩
  · exact Option.noConfusion h

theorem normalizeQuote_nondict (q : JVal) (h : isDict q = false) : normalizeQuote q = none := by
  cases q with
  | obj fs => exact absurd h (by simp [isDict])
  | null => rfl
  | bool b => rfl
  | num m e => rfl
  | str s => rfl
  | arr xs => rfl

theorem normalizeQuote_no_symbol (fs : List (String × JVal))
    (h1 : emptyOrAbsent (dget fs "symbol") = true)
    (h2 : emptyOrAbsent (dget fs "ticker") = true) :
    normalizeQuote (JVal.obj fs) = none := by
  have t1 := truthy_eq_false_of_emptyOrAbsent _ h1
  have t2 := truthy_eq_false_of_emptyOrAbsent _ h2
  simp only [normalizeQuote, pyOr, t1, if_false, Bool.false_eq_true, ite_false, t2]

/-- Claim C1: every `EquityRow` returned by `normalize_equities` has a
non-empty symbol; an input element that is not a mapping, or whose `symbol`
and `ticker` fields are both absent or empty, contributes no output row (its
loop iteration yields `none`, and the output is exactly the list of the
`some` results). -/
theorem c1_rows_have_nonempty_symbol :
    (∀ quotes : List JVal, normalize_equities quotes = quotes.filterMap normalizeQuote) ∧
    (∀ quotes : List JVal, ∀ row ∈ normalize_equities quotes, row.symbol ≠ "") ∧
    (∀ q : JVal, isDict q = false → normalizeQuote q = none) ∧
    (∀ fs : List (String × JVal),
      emptyOrAbsent (dget fs "symbol") = true → emptyOrAbsent (dget fs "ticker") = true →
      normalizeQuote (JVal.obj fs) = none) := by
  refine ⟨fun _ => rfl, ?_, normalizeQuote_nondict, normalizeQuote_no_symbol⟩
  intro quotes row hrow
  obtain ⟨q, _, hq⟩ := List.mem_filterMap.mp hrow
  cases q with
  | obj fs =>
    obtain ⟨htr, hrec⟩ := normalizeQuote_obj_some fs row hq
    rw [hrec]
    exact pyStr_ne_empty_of_truthy _ htr
  | null => exact Option.noConfusion hq
  | bool b => exact Option.noConfusion hq
  | num m e => exact Option.noConfusion hq
  | str s => exact Option.noConfusion hq
  | arr xs => exact Option.noConfusion hq

/-- Witness for C1 at concrete inputs: a mapping with a symbol yields a row
with non-empty symbol; a non-mapping and a mapping with an empty symbol are
dropped. -/
theorem c1_witness :
    (⟨"AAPL", none, none, JVal.null, JVal.null, JVal.null⟩ : EquityRow).symbol ≠ "" ∧
    normalizeQuote (JVal.str "junk") = none ∧
    normalizeQuote (JVal.obj [("symbol", JVal.str "")]) = none := by
  refine ⟨?_, ?_, ?_⟩
  · exact c1_rows_have_nonempty_symbol.2.1 [JVal.obj [("symbol", JVal.str "AAPL")]]
      ⟨"AAPL", none, none, JVal.null, JVal.null, JVal.null⟩ (List.Mem.head _)
  · exact c1_rows_have_nonempty_symbol.2.2.1 (JVal.str "junk") (by decide)
  · exact c1_rows_have_nonempty_symbol.2.2.2 [("symbol", JVal.str "")] (by decide) (by decide)

/-- Counterexample to claim C5 as stated: for the quote
`\x7b"symbol": "A", "price": 0, "lastPrice": 5\x7d` the first present field of
the chain is `price` (value `0`), but the code's `or` between `price` and
`lastPrice` tests truthiness, so the emitted row carries `5`, not `0`. -/
theorem c5_counterexample :
    (normalize_equities
        [JVal.obj [("symbol", JVal.str "A"), ("price", JVal.num 0 0), ("lastPrice", JVal.num 5 0)]]).map
        (fun r => r.price) = [JVal.num 5 0] ∧
    _normalize_value (c5_claimed_price
        [("symbol", JVal.str "A"), ("price", JVal.num 0 0), ("lastPrice", JVal.num 5 0)]) =
      JVal.num 0 0 ∧
    JVal.num 5 0 ≠ JVal.num 0 0 := by
  refine ⟨rfl, rfl, ?_⟩
  intro h
  have h2 : (5 : Int) = 0 := by injection h
  exact absurd h2 (by decide)

/-- Claim C5 amended: the price is the first of `regularMarketPrice`,
`regularMarketPreviousClose` whose lookup is not `None`; when both of those are
`None`, it is `price` if that lookup is truthy, else `lastPrice` (a present but
falsy `price` such as `0` falls through to `lastPrice`).  In particular the
first two selections behave exactly as the claim states, and the row built by
the Normalizer carries the value-normalized selection. -/
theorem c5_price_selection :
    (∀ fs : List (String × JVal), isNone (dget fs "regularMarketPrice") = false →
      _price_value fs = dget fs "regularMarketPrice") ∧
    (∀ fs : List (String × JVal), isNone (dget fs "regularMarketPrice") = true →
      isNone (dget fs "regularMarketPreviousClose") = false →
      _price_value fs = dget fs "regularMarketPreviousClose") ∧
    (∀ fs : List (String × JVal), isNone (dget fs "regularMarketPrice") = true →
      isNone (dget fs "regularMarketPreviousClose") = true →
      _price_value fs = (if truthy (dget fs "price") then dget fs "price" else dget fs "lastPrice")) ∧
    (∀ fs : List (String × JVal), ∀ row : EquityRow, normalizeQuote (JVal.obj fs) = some row →
      row.price = _normalize_value (_price_value fs)) := by
  refine ⟨?_, ?_, ?_, ?_⟩
  · intro fs h
    simp [_price_value, h]
  · intro fs h1 h2
    simp [_price_value, h1, h2]
  · intro fs h1 h2
    simp [_price_value, h1, h2, pyOr]
  · intro fs row h
    obtain ⟨_, hrec⟩ := normalizeQuote_obj_some fs row h
    rw [hrec]

/-- Witness for C5 at concrete quotes: both price fields present selects
`regularMarketPrice`; only previous close present falls back to it; the
emitted row carries the normalized selection. -/
theorem c5_witness :
    _price_value [("regularMarketPrice", JVal.num 10 0), ("regularMarketPreviousClose", JVal.num 9 0)] =
      dget [("regularMarketPrice", JVal.num 10 0), ("regularMarketPreviousClose", JVal.num 9 0)]
        "regularMarketPrice" ∧
    _price_value [("regularMarketPreviousClose", JVal.num 9 0)] =
      dget [("regularMarketPreviousClose", JVal.num 9 0)] "regularMarketPreviousClose" ∧
    _price_value [("price", JVal.num 3 0)] =
      (if truthy (dget [("price", JVal.num 3 0)] "price") then dget [("price", JVal.num 3 0)] "price"
       else dget [("price", JVal.num 3 0)] "lastPrice") ∧
    (⟨"A", none, none, JVal.null, JVal.num 10 0, JVal.null⟩ : EquityRow).price =
      _normalize_value (_price_value [("symbol", JVal.str "A"), ("regularMarketPrice", JVal.num 10 0)]) := by
  refine ⟨?_, ?_, ?_, ?_⟩
  · exact c5_price_selection.1 _ (by decide)
  · exact c5_price_selection.2.1 _ (by decide) (by decide)
  · exact c5_price_selection.2.2.1 _ (by decide) (by decide)
  · exact c5_price_selection.2.2.2 [("symbol", JVal.str "A"), ("regularMarketPrice", JVal.num 10 0)]
      ⟨"A", none, none, JVal.null, JVal.num 10 0, JVal.null⟩ rfl

theorem normalize_value_nondict (v : JVal) (h : isDict v = false) : _normalize_value v = v := by
  cases v with
  | obj fs => exact absurd h (by simp [isDict])
  | null => rfl
  | bool b => rfl
  | num m e => rfl
  | str s => rfl
  | arr xs => rfl

/-- Counterexample to claim C6 as stated: `_normalize_value` is not idempotent
on every value — a `raw` wrapper whose payload is itself a `raw` wrapper
normalizes to a mapping that normalizes further on re-application. -/
theorem c6_counterexample :
    _normalize_value (_normalize_value (JVal.obj [("raw", JVal.obj [("raw", JVal.num 5 0)])])) ≠
      _normalize_value (JVal.obj [("raw", JVal.obj [("raw", JVal.num 5 0)])]) := by
  intro h
  have h2 : JVal.num 5 0 = JVal.obj [("raw", JVal.num 5 0)] := h
  exact JVal.noConfusion h2

/-- Claim C6 amended: a mapping with a `raw` key normalizes to its `raw`
entry, else a mapping with a `fmt` key to its `fmt` entry, else to itself;
every non-mapping passes through unchanged; and normalization is idempotent on
every value whose normalization result is not itself a mapping (in particular
on every already-normalized scalar). -/
theorem c6_value_normalization :
    (∀ (fs : List (String × JVal)) (v : JVal), jlookup fs "raw" = some v →
      _normalize_value (JVal.obj fs) = v) ∧
    (∀ (fs : List (String × JVal)) (v : JVal), jlookup fs "raw" = none →
      jlookup fs "fmt" = some v → _normalize_value (JVal.obj fs) = v) ∧
    (∀ fs : List (String × JVal), jlookup fs "raw" = none → jlookup fs "fmt" = none →
      _normalize_value (JVal.obj fs) = JVal.obj fs) ∧
    (∀ v : JVal, isDict v = false → _normalize_value v = v) ∧
    (∀ v : JVal, isDict (_normalize_value v) = false →
      _normalize_value (_normalize_value v) = _normalize_value v) := by
  refine ⟨?_, ?_, ?_, normalize_value_nondict, ?_⟩
  · intro fs v h
    simp [_normalize_value, h]
  · intro fs v h1 h2
    simp [_normalize_value, h1, h2]
  · intro fs h1 h2
    simp [_normalize_value, h1, h2]
  · intro v h
    exact normalize_value_nondict _ h

/-- Witness for C6 at concrete values: a `raw`/`fmt` wrapper yields the raw
entry `123.4` (represented exactly as `1234 * 10 ^ -1`), not the formatted
string; a `fmt`-only wrapper yields the `fmt` entry; a plain mapping and a
scalar pass through; normalization of a scalar is idempotent. -/
theorem c6_witness :
    _normalize_value (JVal.obj [("raw", JVal.num 1234 (-1)), ("fmt", JVal.str "123.40")]) =
      JVal.num 1234 (-1) ∧
    _normalize_value (JVal.obj [("fmt", JVal.str "1.2B")]) = JVal.str "1.2B" ∧
    _normalize_value (JVal.obj [("x", JVal.num 1 0)]) = JVal.obj [("x", JVal.num 1 0)] ∧
    _normalize_value (JVal.num 7 0) = JVal.num 7 0 ∧
    _normalize_value (_normalize_value (JVal.str "scalar")) = _normalize_value (JVal.str "scalar") := by
  refine ⟨?_, ?_, ?_, ?_, ?_⟩
  · exact c6_value_normalization.1 _ _ rfl
  · exact c6_value_normalization.2.1 _ _ rfl rfl
  · exact c6_value_normalization.2.2.1 _ rfl rfl
  · exact c6_value_normalization.2.2.2.1 _ (by decide)
  · exact c6_value_normalization.2.2.2.2 (JVal.str "scalar") (by decide)

theorem score_foldl_eq (items : List JVal) (h s : Nat) :
    items.foldl _score_step (h, s) =
      (h + items.countP c3_has_symbol, s + (items.map c3_item_points).sum) := by
  induction items generalizing h s with
  | nil => simp
  | cons item rest ih =>
    rw [List.foldl_cons, List.countP_cons, List.map_cons, List.sum_cons]
    cases item with
    | obj fs =>
      by_cases ht : truthy (pyOr (dget fs "symbol") (dget fs "ticker")) = true
      · rw [show _score_step (h, s) (JVal.obj fs) =
            (h + 1, s + 2 +
              (if isNone (_normalize_value (dget fs "regularMarketPrice")) then 0 else 1) +
              (if isNone (_normalize_value (dget fs "marketCap")) then 0 else 1))
            from by simp [_score_step, ht]]
        rw [ih]
        simp [c3_has_symbol, c3_item_points, ht]
        omega
      · rw [show _score_step (h, s) (JVal.obj fs) = (h, s) from by simp [_score_step, ht]]
        rw [ih]
        simp [c3_has_symbol, c3_item_points, ht]
    | null => rw [show _score_step (h, s) JVal.null = (h, s) from rfl, ih]; simp [c3_has_symbol, c3_item_points]
    | bool b => rw [show _score_step (h, s) (JVal.bool b) = (h, s) from rfl, ih]; simp [c3_has_symbol, c3_item_points]
    | num m e => rw [show _score_step (h, s) (JVal.num m e) = (h, s) from rfl, ih]; simp [c3_has_symbol, c3_item_points]
    | str t => rw [show _score_step (h, s) (JVal.str t) = (h, s) from rfl, ih]; simp [c3_has_symbol, c3_item_points]
    | arr xs => rw [show _score_step (h, s) (JVal.arr xs) = (h, s) from rfl, ih]; simp [c3_has_symbol, c3_item_points]

/-- Counterexample to claim C3 as stated: on a one-element symbol list under
the path segment `"myquotes"`, the code joins the string segments and tests
substring containment, awarding the `+5` "quotes" bonus (score `7`), while the
claim's formula awards the bonus only when a segment is literally `"quotes"`
(score `2`). -/
theorem c3_counterexample :
    _score_quote_list [JVal.obj [("symbol", JVal.str "A")]] [JKey.s "myquotes"] = 7 ∧
    c3_claimed_score [JVal.obj [("symbol", JVal.str "A")]] [JKey.s "myquotes"] = 2 ∧
    (7 : Nat) ≠ 2 := by
  refine ⟨by decide, by decide, by decide⟩

/-- Claim C3 amended: the score is `0` for an empty list or when no element
exposes a truthy symbol-like field; otherwise it is the sum of the
per-element points (`+2` per symbol-like element, `+1` more per
price/market-cap field normalizing to non-null) plus path bonuses computed on
the dot-joined string segments of the path: `+10` if it contains
`"Screener"`, `+5` if it contains `"quotes"`, `+2` if it contains
`"results"` (so the latter two are substring tests, like the first, not
literal-equality tests). -/
theorem c3_score_formula (items : List JVal) (path : List JKey) :
    _score_quote_list items path = c3_amended_score items path := by
  unfold _score_quote_list c3_amended_score
  by_cases he : items.isEmpty = true
  · simp [he]
  · simp only [he, Bool.false_eq_true, if_false]
    rw [score_foldl_eq]
    by_cases ha : items.any c3_has_symbol = true
    · have hc : items.countP c3_has_symbol ≠ 0 := by
        obtain ⟨x, hx, hpx⟩ := List.any_eq_true.mp ha
        have := List.countP_pos_iff.mpr ⟨x, hx, hpx⟩
        omega
      simp [ha, hc]
    · have hc : items.countP c3_has_symbol = 0 := by
        rw [List.countP_eq_zero]
        intro x hx hpx
        exact ha (List.any_eq_true.mpr ⟨x, hx, hpx⟩)
      simp [ha, hc]

theorem pickLoop_some_spec (rest : List Cand) : ∀ b : Cand,
    ∃ r, pickLoop (some b) rest = some r ∧
      (∀ c ∈ b :: rest, c.1 ≤ r.1 ∧ (c.1 = r.1 → c.2.2.length ≤ r.2.2.length)) ∧
      ∃ l₁ l₂, b :: rest = l₁ ++ r :: l₂ ∧
        ∀ c ∈ l₁, c.1 < r.1 ∨ (c.1 = r.1 ∧ c.2.2.length < r.2.2.length) := by
  induction rest with
  | nil =>
    intro b
    refine ⟨b, rfl, ?_, [], [], rfl, by simp⟩
    intro c hc
    rw [List.mem_singleton] at hc
    rw [hc]
    exact ⟨le_refl _, fun _ => le_refl _⟩
  | cons c rest ih =>
    intro b
    by_cases h1 : c.1 > b.1
    · obtain ⟨r, hr, hmax, l₁, l₂, hdec, hworse⟩ := ih c
      have hcr := hmax c (List.mem_cons_self c rest)
      refine ⟨r, ?_, ?_, b :: l₁, l₂, by rw [List.cons_append, ← hdec], ?_⟩
      · simp [pickLoop, h1, hr]
      · intro d hd
        rcases List.mem_cons.mp hd with rfl | hdrest
        · exact ⟨by omega, fun he => by omega⟩
        · exact hmax d hdrest
      · intro d hd
        rcases List.mem_cons.mp hd with rfl | hdl
        · left
          omega
        · exact hworse d hdl
    · by_cases h2 : c.1 = b.1 ∧ c.2.2.length > b.2.2.length
      · obtain ⟨r, hr, hmax, l₁, l₂, hdec, hworse⟩ := ih c
        have hcr := hmax c (List.mem_cons_self c rest)
        refine ⟨r, ?_, ?_, b :: l₁, l₂, by rw [List.cons_append, ← hdec], ?_⟩
        · simp [pickLoop, h1, h2, hr]
        · intro d hd
          rcases List.mem_cons.mp hd with rfl | hdrest
          · refine ⟨by omega, fun he => ?_⟩
            have := hcr.2 (by omega)
            omega
          · exact hmax d hdrest
        · intro d hd
          rcases List.mem_cons.mp hd with rfl | hdl
          · by_cases hbr : d.1 < r.1
            · left; exact hbr
            · right
              have hb1 : d.1 = r.1 := by omega
              have := hcr.2 (by omega)
              exact ⟨hb1, by omega⟩
          · exact hworse d hdl
      · obtain ⟨r, hr, hmax, l₁, l₂, hdec, hworse⟩ := ih b
        have hbr := hmax b (List.mem_cons_self b rest)
        refine ⟨r, ?_, ?_, ?_⟩
        · simp [pickLoop, h1, h2, hr]
        · intro d hd
          rcases List.mem_cons.mp hd with rfl | hdrest
          · exact hmax d (List.mem_cons_self d rest)
          · rcases List.mem_cons.mp hdrest with rfl | hdr
            · refine ⟨by omega, fun he => ?_⟩
              rcases Nat.lt_or_ge b.1 r.1 with hlt | hge
              · omega
              · have hb1 : b.1 = r.1 := by omega
                have hlenb := hbr.2 hb1
                have hnot : ¬(d.1 = b.1 ∧ d.2.2.length > b.2.2.length) := h2
                omega
            · exact hmax d (List.mem_cons_of_mem b hdr)
        · cases l₁ with
          | nil =>
            obtain rfl : b = r := by simpa using congrArg (fun l => l.head?) hdec
            exact ⟨[], c :: rest, rfl, by simp⟩
          | cons x l₁t =>
            obtain rfl : b = x := by simpa using congrArg (fun l => l.head?) hdec
            have htail : rest = l₁t ++ r :: l₂ := by
              have := congrArg List.tail hdec
              simpa using this
            refine ⟨b :: c :: l₁t, l₂, by rw [htail]; rfl, ?_⟩
            intro d hd
            have hbworse := hworse b (List.mem_cons_self b l₁t)
            rcases List.mem_cons.mp hd with rfl | hdcl
            · exact hbworse
            · rcases List.mem_cons.mp hdcl with rfl | hdl
              · rcases hbworse with hblt | ⟨hbe, hblen⟩
                · left; omega
                · rcases Nat.lt_or_ge d.1 r.1 with hlt | hge
                  · left; exact hlt
                  · right
                    have hd1 : d.1 = r.1 := by omega
                    have hnot : ¬(d.1 = b.1 ∧ d.2.2.length > b.2.2.length) := h2
                    exact ⟨hd1, by omega⟩
              · exact hworse d (List.mem_cons_of_mem b hdl)

/-- Claim C4: for every non-empty candidate list, `_pick_best_candidate`
returns a member with maximal score; among candidates of maximal score it has
maximal list length; and it is the first-found such candidate (everything
before it in the list is strictly worse in the (score, length) order). -/
theorem c4_pick_best_candidate (cs : List Cand) (h : cs ≠ []) :
    ∃ r, _pick_best_candidate cs = some r ∧ r ∈ cs ∧
      (∀ c ∈ cs, c.1 ≤ r.1) ∧
      (∀ c ∈ cs, c.1 = r.1 → c.2.2.length ≤ r.2.2.length) ∧
      ∃ l₁ l₂, cs = l₁ ++ r :: l₂ ∧
        ∀ c ∈ l₁, c.1 < r.1 ∨ (c.1 = r.1 ∧ c.2.2.length < r.2.2.length) := by
  cases cs with
  | nil => exact absurd rfl h
  | cons b rest =>
    obtain ⟨r, hr, hmax, l₁, l₂, hdec, hworse⟩ := pickLoop_some_spec rest b
    refine ⟨r, hr, ?_, fun c hc => (hmax c hc).1, fun c hc => (hmax c hc).2, l₁, l₂, hdec, hworse⟩
    rw [hdec]
    exact List.mem_append.mpr (Or.inr (List.mem_cons_self r l₂))

/-- Witness for C4 at a concrete candidate list with a score tie: the chosen
candidate is the first of the two longest score-7 candidates. -/
theorem c4_witness :
    ∃ r, _pick_best_candidate
        [(3, [], [JVal.null]), (7, [], [JVal.null]),
         (7, [], [JVal.null, JVal.null]), (7, [], [JVal.str "x", JVal.str "y"])] = some r ∧
      r ∈ [((3 : Nat), ([] : List JKey), [JVal.null]), (7, [], [JVal.null]),
         (7, [], [JVal.null, JVal.null]), (7, [], [JVal.str "x", JVal.str "y"])] ∧
      (∀ c ∈ [((3 : Nat), ([] : List JKey), [JVal.null]), (7, [], [JVal.null]),
         (7, [], [JVal.null, JVal.null]), (7, [], [JVal.str "x", JVal.str "y"])], c.1 ≤ r.1) ∧
      (∀ c ∈ [((3 : Nat), ([] : List JKey), [JVal.null]), (7, [], [JVal.null]),
         (7, [], [JVal.null, JVal.null]), (7, [], [JVal.str "x", JVal.str "y"])],
        c.1 = r.1 → c.2.2.length ≤ r.2.2.length) ∧
      ∃ l₁ l₂, [((3 : Nat), ([] : List JKey), [JVal.null]), (7, [], [JVal.null]),
         (7, [], [JVal.null, JVal.null]), (7, [], [JVal.str "x", JVal.str "y"])] = l₁ ++ r :: l₂ ∧
        ∀ c ∈ l₁, c.1 < r.1 ∨ (c.1 = r.1 ∧ c.2.2.length < r.2.2.length) :=
  c4_pick_best_candidate _ (by simp)

theorem symFreeF_mem (fs : List (String × JVal)) (h : symFreeF fs = true) :
    ∀ kv ∈ fs, symFree kv.2 = true := by
  induction fs with
  | nil => intro kv hkv; exact absurd hkv (List.not_mem_nil kv)
  | cons p t ih =>
    intro kv hkv
    obtain ⟨k, v⟩ := p
    rw [symFreeF, Bool.and_eq_true] at h
    rcases List.mem_cons.mp hkv with rfl | hm
    · exact h.1
    · exact ih h.2 kv hm

theorem symFreeL_mem (xs : List JVal) (h : symFreeL xs = true) :
    ∀ x ∈ xs, symFree x = true := by
  induction xs with
  | nil => intro x hx; exact absurd hx (List.not_mem_nil x)
  | cons v t ih =>
    intro x hx
    rw [symFreeL, Bool.and_eq_true] at h
    rcases List.mem_cons.mp hx with rfl | hm
    · exact h.1
    · exact ih h.2 x hm

theorem symFree_obj (fs : List (String × JVal)) (h : symFree (JVal.obj fs) = true) :
    truthy (pyOr (dget fs "symbol") (dget fs "ticker")) = false ∧ symFreeF fs = true := by
  rw [symFree, Bool.and_eq_true] at h
  exact ⟨by simpa using h.1, h.2⟩

theorem jlookup_mem (fs : List (String × JVal)) (key : String) (v : JVal)
    (h : jlookup fs key = some v) : ∃ k, (k, v) ∈ fs := by
  induction fs with
  | nil => exact Option.noConfusion h
  | cons p t ih =>
    obtain ⟨k, w⟩ := p
    rw [jlookup] at h
    by_cases hk : k = key
    · rw [if_pos hk] at h
      cases h
      exact ⟨k, List.mem_cons_self _ _⟩
    · rw [if_neg hk] at h
      obtain ⟨k2, hm⟩ := ih h
      exact ⟨k2, List.mem_cons_of_mem _ hm⟩

theorem dget_symFree (fs : List (String × JVal)) (key : String)
    (h : symFree (JVal.obj fs) = true) : symFree (dget fs key) = true := by
  unfold dget
  cases hl : jlookup fs key with
  | none => rfl
  | some v =>
    obtain ⟨k, hm⟩ := jlookup_mem fs key v hl
    exact symFreeF_mem fs (symFree_obj fs h).2 (k, v) hm

theorem getPath_symFree (ks : List JKey) : ∀ v : JVal, symFree v = true →
    symFree (_get_path v ks) = true := by
  induction ks with
  | nil => intro v h; exact h
  | cons k rest ih =>
    intro v h
    cases k with
    | i n =>
      cases v with
      | arr xs =>
        rw [_get_path]
        cases hg : xs.get? n with
        | none => rfl
        | some w =>
          exact ih w (symFreeL_mem xs (by rw [symFree] at h; exact h) w (List.get?_mem hg))
      | null => rfl
      | bool b => rfl
      | num m e => rfl
      | str s => rfl
      | obj fs => rfl
    | s key =>
      cases v with
      | obj fs =>
        rw [_get_path]
        cases hl : jlookup fs key with
        | none => rfl
        | some w =>
          obtain ⟨k2, hm⟩ := jlookup_mem fs key w hl
          exact ih w (symFreeF_mem fs (symFree_obj fs h).2 (k2, w) hm)
      | null => rfl
      | bool b => rfl
      | num m e => rfl
      | str s => rfl
      | arr xs => rfl

theorem c3_has_symbol_false_of_symFree (x : JVal) (h : symFree x = true) :
    c3_has_symbol x = false := by
  cases x with
  | obj fs => exact (symFree_obj fs h).1
  | null => rfl
  | bool b => rfl
  | num m e => rfl
  | str s => rfl
  | arr xs => rfl

theorem score_zero_of_symFree (items : List JVal) (path : List JKey)
    (h : ∀ x ∈ items, symFree x = true) : _score_quote_list items path = 0 := by
  unfold _score_quote_list
  by_cases he : items.isEmpty = true
  · simp [he]
  · simp only [he, Bool.false_eq_true, if_false]
    rw [score_foldl_eq]
    have hc : items.countP c3_has_symbol = 0 := by
      rw [List.countP_eq_zero]
      intro x hx hpx
      rw [c3_has_symbol_false_of_symFree x (h x hx)] at hpx
      exact Bool.noConfusion hpx
    simp [hc]

theorem jvalues_symFree (fs : List (String × JVal)) (h : symFreeF fs = true) :
    ∀ v ∈ jvalues fs, symFree v = true := by
  intro v hv
  obtain ⟨kv, hkv, rfl⟩ := List.mem_map.mp hv
  exact symFreeF_mem fs h kv hkv

theorem dictFieldCandidate_none (path : List JKey) (kv : String × JVal)
    (h : symFree kv.2 = true) : dictFieldCandidate path kv = none := by
  obtain ⟨k, v⟩ := kv
  cases v with
  | arr xs =>
    have hs : _score_quote_list xs (path ++ [JKey.s k]) = 0 :=
      score_zero_of_symFree xs _ (symFreeL_mem xs (by rw [symFree] at h; exact h))
    simp [dictFieldCandidate, hs]
  | obj gs =>
    by_cases hk : k = "quotes"
    · have hs : _score_quote_list (jvalues gs) (path ++ [JKey.s k]) = 0 :=
        score_zero_of_symFree _ _ (jvalues_symFree gs (symFree_obj gs h).2)
      subst hk
      simp [dictFieldCandidate, hs]
    · simp [dictFieldCandidate, hk]
  | null => rfl
  | bool b => rfl
  | num m e => rfl
  | str s => rfl

theorem findLoopF_nil_of_symFree : ∀ (fuel : Nat) (stack : List (JVal × List JKey)),
    (∀ e ∈ stack, symFree e.1 = true) → findLoopF fuel stack = [] := by
  intro fuel
  induction fuel with
  | zero => intro stack _; rfl
  | succ f ih =>
    intro stack h
    cases stack with
    | nil => rfl
    | cons e rest =>
      obtain ⟨node, path⟩ := e
      have hnode : symFree node = true := h (node, path) (List.mem_cons_self _ _)
      have hrest : ∀ e ∈ rest, symFree e.1 = true := fun e he => h e (List.mem_cons_of_mem _ he)
      cases node with
      | obj fs =>
        rw [findLoopF]
        by_cases hd : path.length > 16
        · rw [if_pos hd]; exact ih rest hrest
        · rw [if_neg hd]
          have hf := (symFree_obj fs hnode).2
          have hcand : fs.filterMap (dictFieldCandidate path) = [] := by
            rw [List.filterMap_eq_nil_iff]
            intro kv hkv
            exact dictFieldCandidate_none path kv (symFreeF_mem fs hf kv hkv)
          rw [hcand, List.nil_append]
          apply ih
          intro e he
          rcases List.mem_append.mp he with hl | hr
          · rw [List.mem_reverse] at hl
            obtain ⟨kv, hkv, hfe⟩ := List.mem_filterMap.mp hl
            by_cases hc : isContainer kv.2 = true
            · rw [if_pos hc] at hfe
              cases hfe
              exact symFreeF_mem fs hf kv hkv
            · rw [if_neg hc] at hfe
              exact Option.noConfusion hfe
          · exact hrest e hr
      | arr xs =>
        rw [findLoopF]
        by_cases hd : path.length > 16
        · rw [if_pos hd]; exact ih rest hrest
        · rw [if_neg hd]
          have hl2 : symFreeL xs = true := by rw [symFree] at hnode; exact hnode
          apply ih
          intro e he
          rcases List.mem_append.mp he with hl | hr
          · rw [List.mem_reverse] at hl
            obtain ⟨p, hp, hfe⟩ := List.mem_filterMap.mp hl
            by_cases hc : isContainer p.2 = true
            · rw [if_pos hc] at hfe
              cases hfe
              have hx : p.2 ∈ xs := by
                have hmap := List.enum_map_snd xs
                rw [← hmap]
                exact List.mem_map_of_mem Prod.snd hp
              exact symFreeL_mem xs hl2 p.2 hx
            · rw [if_neg hc] at hfe
              exact Option.noConfusion hfe
          · exact hrest e hr
      | null =>
        rw [findLoopF]
        · by_cases hd : path.length > 16
          · rw [if_pos hd]; exact ih rest hrest
          · rw [if_neg hd]; exact ih rest hrest
        · intro fs heq; exact JVal.noConfusion heq
        · intro xs heq; exact JVal.noConfusion heq
      | bool b =>
        rw [findLoopF]
        · by_cases hd : path.length > 16
          · rw [if_pos hd]; exact ih rest hrest
          · rw [if_neg hd]; exact ih rest hrest
        · intro fs heq; exact JVal.noConfusion heq
        · intro xs heq; exact JVal.noConfusion heq
      | num m e2 =>
        rw [findLoopF]
        · by_cases hd : path.length > 16
          · rw [if_pos hd]; exact ih rest hrest
          · rw [if_neg hd]; exact ih rest hrest
        · intro fs heq; exact JVal.noConfusion heq
        · intro xs heq; exact JVal.noConfusion heq
      | str s =>
        rw [findLoopF]
        · by_cases hd : path.length > 16
          · rw [if_pos hd]; exact ih rest hrest
          · rw [if_neg hd]; exact ih rest hrest
        · intro fs heq; exact JVal.noConfusion heq
        · intro xs heq; exact JVal.noConfusion heq

theorem find_quote_lists_nil_of_symFree (data : JVal) (base : List JKey)
    (h : symFree data = true) : _find_quote_lists data base = [] := by
  apply findLoopF_nil_of_symFree
  intro e he
  rw [List.mem_singleton] at he
  rw [he]
  exact h

theorem knownPathCandidate_none (state : JVal) (path : List JKey) (h : symFree state = true) :
    knownPathCandidate state path = none := by
  have h0 : symFree (_get_path state path) = true := getPath_symFree path state h
  cases hv : _get_path state path with
  | obj fs =>
    rw [hv] at h0
    by_cases hq : hasKey fs "quotes" = true
    · have hqf : symFree (dget fs "quotes") = true := dget_symFree fs _ h0
      cases hdg : dget fs "quotes" with
      | obj gs =>
        rw [hdg] at hqf
        have hs : _score_quote_list (jvalues gs) (path ++ [JKey.s "quotes"]) = 0 :=
          score_zero_of_symFree _ _ (jvalues_symFree gs (symFree_obj gs hqf).2)
        simp [knownPathCandidate, hv, hq, hdg, hs]
      | arr xs =>
        rw [hdg] at hqf
        have hs : _score_quote_list xs (path ++ [JKey.s "quotes"]) = 0 :=
          score_zero_of_symFree _ _ (symFreeL_mem xs (by rw [symFree] at hqf; exact hqf))
        simp [knownPathCandidate, hv, hq, hdg, hs]
      | null => simp [knownPathCandidate, hv, hq, hdg]
      | bool b => simp [knownPathCandidate, hv, hq, hdg]
      | num m e => simp [knownPathCandidate, hv, hq, hdg]
      | str s => simp [knownPathCandidate, hv, hq, hdg]
    · have hs : _score_quote_list (jvalues fs) path = 0 :=
        score_zero_of_symFree _ _ (jvalues_symFree fs (symFree_obj fs h0).2)
      simp [knownPathCandidate, hv, hq, hs]
  | arr xs =>
    rw [hv] at h0
    have hs : _score_quote_list xs path = 0 :=
      score_zero_of_symFree _ _ (symFreeL_mem xs (by rw [symFree] at h0; exact h0))
    simp [knownPathCandidate, hv, hs]
  | null => simp [knownPathCandidate, hv]
  | bool b => simp [knownPathCandidate, hv]
  | num m e => simp [knownPathCandidate, hv]
  | str s => simp [knownPathCandidate, hv]

theorem pick_best_none_iff (cs : List Cand) : _pick_best_candidate cs = none ↔ cs = [] := by
  constructor
  · intro h
    cases cs with
    | nil => rfl
    | cons b rest =>
      obtain ⟨r, hr, _⟩ := pickLoop_some_spec rest b
      rw [show _pick_best_candidate (b :: rest) = pickLoop (some b) rest from rfl, hr] at h
      exact Option.noConfusion h
  · intro h
    rw [h]
    rfl

theorem extract_quotes_error_iff (state : JVal) :
    extract_quotes state = .error (quotes_not_found_msg state) ↔
      (_candidates_from_known_paths state = [] ∧ strat2_cands state = [] ∧
       section_cands state [JKey.s "props", JKey.s "pageProps"] = [] ∧
       section_cands state [JKey.s "pageProps"] = [] ∧
       section_cands state [JKey.s "props"] = [] ∧
       _find_quote_lists state [] = []) := by
  constructor
  · intro herr
    unfold extract_quotes at herr
    split at herr
    · exact Except.noConfusion herr
    next h1 =>
      split at herr
      · exact Except.noConfusion herr
      next h2 =>
        split at herr
        · exact Except.noConfusion herr
        next h3 =>
          split at herr
          · exact Except.noConfusion herr
          next h4 =>
            split at herr
            · exact Except.noConfusion herr
            next h5 =>
              split at herr
              · exact Except.noConfusion herr
              next h6 =>
                exact ⟨(pick_best_none_iff _).mp h1, (pick_best_none_iff _).mp h2,
                  (pick_best_none_iff _).mp h3, (pick_best_none_iff _).mp h4,
                  (pick_best_none_iff _).mp h5, (pick_best_none_iff _).mp h6⟩
  · intro ⟨h1, h2, h3, h4, h5, h6⟩
    have p1 := (pick_best_none_iff _).mpr h1
    have p2 := (pick_best_none_iff _).mpr h2
    have p3 := (pick_best_none_iff _).mpr h3
    have p4 := (pick_best_none_iff _).mpr h4
    have p5 := (pick_best_none_iff _).mpr h5
    have p6 := (pick_best_none_iff _).mpr h6
    simp only [extract_quotes, p1, p2, p3, p4, p5, p6]

/-- Counterexample to claim C8 as stated: in the tree
`\x7b"quotes": \x7b"k": \x7b"symbol": "A"\x7d\x7d\x7d` no list element anywhere has a
`symbol` or `ticker` field (there are no lists at all), yet `extract_quotes`
succeeds: the traversal also scores the values of a `"quotes"`-keyed mapping,
so no "quotes not found" error is raised. -/
theorem c8_counterexample :
    noListSym (JVal.obj [("quotes", JVal.obj [("k", JVal.obj [("symbol", JVal.str "A")])])]) = true ∧
    extract_quotes (JVal.obj [("quotes", JVal.obj [("k", JVal.obj [("symbol", JVal.str "A")])])]) =
      .ok [JVal.obj [("symbol", JVal.str "A")]] := by
  exact ⟨by decide, rfl⟩

/-- Claim C8 amended: `extract_quotes` fails with the "quotes not found"
error — whose message carries the top-level keys of the tree and the keys of
the stores subtree — exactly when all strategies (known paths, stores-scoped
traversal, the three props/pageProps-scoped traversals, whole-tree traversal)
produce no positively-scored candidate; in particular it fails this way on
every tree in which no mapping anywhere has a truthy `symbol` or `ticker`
entry (list elements and mapping values alike, since `"quotes"`-keyed mappings
are scored through their lists of values). -/
theorem c8_quotes_not_found :
    (∀ state : JVal,
      extract_quotes state = .error (quotes_not_found_msg state) ↔
        (_candidates_from_known_paths state = [] ∧ strat2_cands state = [] ∧
         section_cands state [JKey.s "props", JKey.s "pageProps"] = [] ∧
         section_cands state [JKey.s "pageProps"] = [] ∧
         section_cands state [JKey.s "props"] = [] ∧
         _find_quote_lists state [] = [])) ∧
    (∀ state : JVal, symFree state = true →
      extract_quotes state = .error (quotes_not_found_msg state)) := by
  refine ⟨extract_quotes_error_iff, ?_⟩
  intro state hsf
  apply (extract_quotes_error_iff state).mpr
  refine ⟨?_, ?_, ?_, ?_, ?_, ?_⟩
  · rw [show _candidates_from_known_paths state = _KNOWN_PATHS.filterMap (knownPathCandidate state)
      from rfl, List.filterMap_eq_nil_iff]
    intro path _
    exact knownPathCandidate_none state path hsf
  · unfold strat2_cands
    have h0 := getPath_symFree [JKey.s "context", JKey.s "dispatcher", JKey.s "stores"] state hsf
    cases hv : _get_path state [JKey.s "context", JKey.s "dispatcher", JKey.s "stores"] with
    | obj fs => rw [hv] at h0; exact find_quote_lists_nil_of_symFree _ _ h0
    | null => rfl
    | bool b => rfl
    | num m e => rfl
    | str s => rfl
    | arr xs => rfl
  · unfold section_cands
    have h0 := getPath_symFree [JKey.s "props", JKey.s "pageProps"] state hsf
    cases hv : _get_path state [JKey.s "props", JKey.s "pageProps"] with
    | obj fs => rw [hv] at h0; exact find_quote_lists_nil_of_symFree _ _ h0
    | arr xs => rw [hv] at h0; exact find_quote_lists_nil_of_symFree _ _ h0
    | null => rfl
    | bool b => rfl
    | num m e => rfl
    | str s => rfl
  · unfold section_cands
    have h0 := getPath_symFree [JKey.s "pageProps"] state hsf
    cases hv : _get_path state [JKey.s "pageProps"] with
    | obj fs => rw [hv] at h0; exact find_quote_lists_nil_of_symFree _ _ h0
    | arr xs => rw [hv] at h0; exact find_quote_lists_nil_of_symFree _ _ h0
    | null => rfl
    | bool b => rfl
    | num m e => rfl
    | str s => rfl
  · unfold section_cands
    have h0 := getPath_symFree [JKey.s "props"] state hsf
    cases hv : _get_path state [JKey.s "props"] with
    | obj fs => rw [hv] at h0; exact find_quote_lists_nil_of_symFree _ _ h0
    | arr xs => rw [hv] at h0; exact find_quote_lists_nil_of_symFree _ _ h0
    | null => rfl
    | bool b => rfl
    | num m e => rfl
    | str s => rfl
  · exact find_quote_lists_nil_of_symFree _ _ hsf

/-- Witness for C8 at a concrete symbol-free tree: the error with the
diagnostic message is raised. -/
theorem c8_witness :
    extract_quotes (JVal.obj [("a", JVal.arr [JVal.num 1 0])]) =
      .error (quotes_not_found_msg (JVal.obj [("a", JVal.arr [JVal.num 1 0])])) :=
  c8_quotes_not_found.2 (JVal.obj [("a", JVal.arr [JVal.num 1 0])]) (by decide)

/-- Claim C10: wherever a list of quote records is expected a mapping is also
accepted, its values taken in iteration order — a known path resolving to a
mapping without a `quotes` key is scored as its list of values; one resolving
to a mapping with a `quotes` key descends into that entry (a mapping there is
again taken as its values, a list is taken as is); a `"quotes"`-keyed mapping
met during traversal is scored as its list of values; and a selected
candidate's list is returned by `extract_quotes` unchanged (`_coerce_quotes`
is the identity on lists, and turns a mapping into its values). -/
theorem c10_mapping_accepted_as_list :
    (∀ (state : JVal) (path : List JKey) (fs : List (String × JVal)),
      _get_path state path = JVal.obj fs → hasKey fs "quotes" = false →
      knownPathCandidate state path = candOf (jvalues fs) path) ∧
    (∀ (state : JVal) (path : List JKey) (fs gs : List (String × JVal)),
      _get_path state path = JVal.obj fs → jlookup fs "quotes" = some (JVal.obj gs) →
      knownPathCandidate state path = candOf (jvalues gs) (path ++ [JKey.s "quotes"])) ∧
    (∀ (state : JVal) (path : List JKey) (fs : List (String × JVal)) (xs : List JVal),
      _get_path state path = JVal.obj fs → jlookup fs "quotes" = some (JVal.arr xs) →
      knownPathCandidate state path = candOf xs (path ++ [JKey.s "quotes"])) ∧
    (∀ (path : List JKey) (gs : List (String × JVal)),
      dictFieldCandidate path ("quotes", JVal.obj gs) = candOf (jvalues gs) (path ++ [JKey.s "quotes"])) ∧
    (∀ xs : List JVal, _coerce_quotes (JVal.arr xs) = xs) ∧
    (∀ fs : List (String × JVal), _coerce_quotes (JVal.obj fs) = jvalues fs) ∧
    (∀ (state : JVal) (b : Cand),
      _pick_best_candidate (_candidates_from_known_paths state) = some b →
      extract_quotes state = .ok b.2.2) := by
  refine ⟨?_, ?_, ?_, ?_, fun _ => rfl, fun _ => rfl, ?_⟩
  · intro state path fs hv hq
    simp [knownPathCandidate, candOf, hv, hq]
  · intro state path fs gs hv hl
    have hq : hasKey fs "quotes" = true := by rw [hasKey, hl]; rfl
    have hd : dget fs "quotes" = JVal.obj gs := by rw [dget, hl]
    simp [knownPathCandidate, candOf, hv, hq, hd]
  · intro state path fs xs hv hl
    have hq : hasKey fs "quotes" = true := by rw [hasKey, hl]; rfl
    have hd : dget fs "quotes" = JVal.arr xs := by rw [dget, hl]
    simp [knownPathCandidate, candOf, hv, hq, hd]
  · intro path gs
    simp [dictFieldCandidate, candOf]
  · intro state b h
    unfold extract_quotes
    simp only [h]
    rfl

/-- Witness for C10 at concrete inputs: a known path resolving to a mapping
of records, a traversal hit on a `"quotes"`-keyed mapping, and an end-to-end
run returning the selected candidate's list unchanged. -/
theorem c10_witness :
    knownPathCandidate
        (JVal.obj [("context", JVal.obj [("dispatcher", JVal.obj [("stores",
          JVal.obj [("ScreenerResultsStore", JVal.obj [("results", JVal.obj [("quotes",
          JVal.obj [("q1", JVal.obj [("symbol", JVal.str "A")])])])])])])])])
        [JKey.s "context", JKey.s "dispatcher", JKey.s "stores", JKey.s "ScreenerResultsStore",
         JKey.s "results", JKey.s "quotes"] =
      candOf (jvalues [("q1", JVal.obj [("symbol", JVal.str "A")])])
        [JKey.s "context", JKey.s "dispatcher", JKey.s "stores", JKey.s "ScreenerResultsStore",
         JKey.s "results", JKey.s "quotes"] ∧
    dictFieldCandidate [] ("quotes", JVal.obj [("k", JVal.obj [("symbol", JVal.str "A")])]) =
      candOf (jvalues [("k", JVal.obj [("symbol", JVal.str "A")])]) [JKey.s "quotes"] ∧
    _coerce_quotes (JVal.arr [JVal.num 1 0]) = [JVal.num 1 0] ∧
    _coerce_quotes (JVal.obj [("k", JVal.str "v")]) = jvalues [("k", JVal.str "v")] ∧
    extract_quotes (JVal.obj [("context", JVal.obj [("dispatcher", JVal.obj [("stores",
        JVal.obj [("ScreenerResultsStore", JVal.obj [("results", JVal.obj [("quotes",
        JVal.arr [JVal.obj [("symbol", JVal.str "ABC")]])])])])])])]) =
      .ok [JVal.obj [("symbol", JVal.str "ABC")]] := by
  refine ⟨?_, ?_, ?_, ?_, ?_⟩
  · exact c10_mapping_accepted_as_list.1 _ _ _ rfl (by decide)
  · exact c10_mapping_accepted_as_list.2.2.2.1 [] _
  · exact c10_mapping_accepted_as_list.2.2.2.2.1 _
  · exact c10_mapping_accepted_as_list.2.2.2.2.2.1 _
  · exact c10_mapping_accepted_as_list.2.2.2.2.2.2 _
      (19, [JKey.s "context", JKey.s "dispatcher", JKey.s "stores", JKey.s "ScreenerResultsStore",
        JKey.s "results", JKey.s "quotes"], [JVal.obj [("symbol", JVal.str "ABC")]]) rfl

theorem loopSpec_translate (c : Char) (rest : List Char) (d d2 : Int) (i e i2 e2 : Bool) (n : Nat)
    (hjs : jstep (d, i, e) c = (d2, i2, e2))
    (hbl : balancedLoop (c :: rest) d i e n = balancedLoop rest d2 i2 e2 (n + 1))
    (hd2 : 1 ≤ d2)
    (hok : loopSpecOk rest d2 i2 e2 (n + 1)) (hnone : loopSpecNone rest d2 i2 e2 (n + 1)) :
    loopSpecOk (c :: rest) d i e n ∧ loopSpecNone (c :: rest) d i e n := by
  constructor
  · intro m hm
    rw [hbl] at hm
    obtain ⟨k, hk1, hk2, hm2, hget, hfold, hmin⟩ := hok m hm
    obtain ⟨k0, rfl⟩ : ∃ k0, k = k0 + 1 := ⟨k - 1, by omega⟩
    refine ⟨k0 + 2, by omega, by simp; omega, by omega, ?_, ?_, ?_⟩
    · simpa using hget
    · rw [show k0 + 2 = (k0 + 1) + 1 from rfl, List.take_succ_cons, List.foldl_cons, hjs]
      exact hfold
    · intro j hj1 hjk
      obtain ⟨j0, rfl⟩ : ∃ j0, j = j0 + 1 := ⟨j - 1, by omega⟩
      rw [List.take_succ_cons, List.foldl_cons, hjs]
      by_cases hj0 : j0 = 0
      · subst hj0
        simp
        omega
      · exact hmin j0 (by omega) (by omega)
  · intro hm
    rw [hbl] at hm
    have hnn := hnone hm
    intro k hk1 hk2
    obtain ⟨k0, rfl⟩ : ∃ k0, k = k0 + 1 := ⟨k - 1, by omega⟩
    rw [List.take_succ_cons, List.foldl_cons, hjs]
    by_cases hk0 : k0 = 0
    · subst hk0
      simp
      omega
    · exact hnn k0 (by omega) (by simpa using hk2)

theorem balancedLoop_spec : ∀ (u : List Char) (d : Int) (i e : Bool) (n : Nat), 1 ≤ d →
    loopSpecOk u d i e n ∧ loopSpecNone u d i e n := by
  intro u
  induction u with
  | nil =>
    intro d i e n _
    constructor
    · intro m hm
      exact Option.noConfusion hm
    · intro _ k hk1 hk2
      simp at hk2
      omega
  | cons c rest ih =>
    intro d i e n hd
    cases i with
    | true =>
      cases e with
      | true =>
        exact loopSpec_translate c rest d d true true true false n rfl rfl hd
          ((ih d true false (n + 1) hd).1) ((ih d true false (n + 1) hd).2)
      | false =>
        by_cases hc1 : c = '\\'
        · subst hc1
          exact loopSpec_translate _ rest d d true false true true n rfl rfl hd
            ((ih d true true (n + 1) hd).1) ((ih d true true (n + 1) hd).2)
        · by_cases hc2 : c = '"'
          · subst hc2
            exact loopSpec_translate _ rest d d true false false false n rfl rfl hd
              ((ih d false false (n + 1) hd).1) ((ih d false false (n + 1) hd).2)
          · refine loopSpec_translate c rest d d true false true false n ?_ ?_ hd
              ((ih d true false (n + 1) hd).1) ((ih d true false (n + 1) hd).2)
            · simp [jstep, hc1, hc2]
            · simp [balancedLoop, hc1, hc2]
    | false =>
      by_cases hq : c = '"'
      · subst hq
        exact loopSpec_translate _ rest d d false e true false n rfl rfl hd
          ((ih d true false (n + 1) hd).1) ((ih d true false (n + 1) hd).2)
      · by_cases hob : c = '\x7b'
        · subst hob
          exact loopSpec_translate _ rest d (d + 1) false e false false n rfl rfl (by omega)
            ((ih (d + 1) false false (n + 1) (by omega)).1)
            ((ih (d + 1) false false (n + 1) (by omega)).2)
        · by_cases hcb : c = '\x7d'
          · subst hcb
            by_cases hz : d - 1 = 0
            · have hbl : balancedLoop ('\x7d' :: rest) d false e n = some (n + 1) := by
                simp [balancedLoop, hz]
              constructor
              · intro m hm
                rw [hbl] at hm
                obtain rfl : n + 1 = m := Option.some.inj hm
                refine ⟨1, le_refl 1, by simp, by omega, rfl, ?_, ?_⟩
                · rw [show ('\x7d' :: rest).take 1 = ['\x7d'] from rfl]
                  rw [show (['\x7d'].foldl jstep (d, false, e)) = jstep (d, false, e) '\x7d' from rfl]
                  rw [show jstep (d, false, e) '\x7d' = (d - 1, false, false) from rfl]
                  exact hz
                · intro j hj1 hj2
                  omega
              · intro hm
                rw [hbl] at hm
                exact Option.noConfusion hm
            · refine loopSpec_translate _ rest d (d - 1) false e false false n rfl ?_ (by omega)
                ((ih (d - 1) false false (n + 1) (by omega)).1)
                ((ih (d - 1) false false (n + 1) (by omega)).2)
              simp [balancedLoop, hz]
          · refine loopSpec_translate c rest d d false e false false n ?_ ?_ hd
              ((ih d false false (n + 1) hd).1) ((ih d false false (n + 1) hd).2)
            · simp [jstep, hq, hob, hcb]
            · simp [balancedLoop, hq, hob, hcb]

theorem extract_balanced_core_spec (rest : List Char) :
    (∀ s, _extract_balanced_core ('\x7b' :: rest) = .ok s →
      ∃ n, 1 ≤ n ∧ n ≤ ('\x7b' :: rest).length ∧ s = ('\x7b' :: rest).take n ∧
        ('\x7b' :: rest).get? (n - 1) = some '\x7d' ∧
        depthAfter (('\x7b' :: rest).take n) = 0 ∧
        ∀ m, 1 ≤ m → m < n → depthAfter (('\x7b' :: rest).take m) ≠ 0) ∧
    ((∃ msg, _extract_balanced_core ('\x7b' :: rest) = .error msg) ↔
      ∀ n, 1 ≤ n → n ≤ ('\x7b' :: rest).length → depthAfter (('\x7b' :: rest).take n) ≠ 0) := by
  obtain ⟨hok, hnone⟩ := loopSpec_translate '\x7b' rest 0 1 false false false false 0 rfl rfl
    (by omega)
    ((balancedLoop_spec rest 1 false false 1 (by omega)).1)
    ((balancedLoop_spec rest 1 false false 1 (by omega)).2)
  constructor
  · intro s hs
    unfold _extract_balanced_core at hs
    cases hm : balancedLoop ('\x7b' :: rest) 0 false false 0 with
    | none => rw [hm] at hs; exact Except.noConfusion hs
    | some m =>
      rw [hm] at hs
      obtain rfl : ('\x7b' :: rest).take m = s := Except.ok.inj hs
      obtain ⟨k, hk1, hk2, hmk, hget, hfold, hmin⟩ := hok m hm
      have hmk2 : m = k := by omega
      rw [hmk2]
      exact ⟨k, hk1, hk2, rfl, hget, hfold, hmin⟩
  · constructor
    · intro hex
      obtain ⟨msg, hs⟩ := hex
      unfold _extract_balanced_core at hs
      cases hm : balancedLoop ('\x7b' :: rest) 0 false false 0 with
      | some m => rw [hm] at hs; exact Except.noConfusion hs
      | none => exact fun n hn1 hn2 => hnone hm n hn1 hn2
    · intro hall
      cases hm : balancedLoop ('\x7b' :: rest) 0 false false 0 with
      | some m =>
        obtain ⟨k, hk1, hk2, hmk, hget, hfold, hmin⟩ := hok m hm
        exact absurd hfold (hall k hk1 hk2)
      | none =>
        refine ⟨"Unbalanced JSON while parsing root.App.main.", ?_⟩
        unfold _extract_balanced_core
        rw [hm]

/-- Claim C9: for a start index pointing at `\x7b`, `_extract_balanced_json`
returns exactly the substring from the start index through the closing brace
of the smallest prefix that the brace automaton (which skips braces inside
double-quoted strings, with backslash-escape tracking) balances to depth
zero — the returned prefix ends in `\x7d`, reaches depth zero, and no shorter
nonempty prefix does — and it fails with the unbalanced-JSON error exactly
when no prefix of the buffer balances. -/
theorem c9_extract_balanced_json (text : List Char) (start : Nat)
    (hhead : (text.drop start).head? = some '\x7b') :
    (∀ s, _extract_balanced_json text start = .ok s →
      ∃ n, 1 ≤ n ∧ n ≤ (text.drop start).length ∧ s = (text.drop start).take n ∧
        (text.drop start).get? (n - 1) = some '\x7d' ∧
        depthAfter ((text.drop start).take n) = 0 ∧
        ∀ m, 1 ≤ m → m < n → depthAfter ((text.drop start).take m) ≠ 0) ∧
    ((∃ msg, _extract_balanced_json text start = .error msg) ↔
      ∀ n, 1 ≤ n → n ≤ (text.drop start).length → depthAfter ((text.drop start).take n) ≠ 0) := by
  unfold _extract_balanced_json
  cases hu : text.drop start with
  | nil =>
    rw [hu] at hhead
    exact Option.noConfusion hhead
  | cons c rest =>
    rw [hu] at hhead
    obtain rfl : c = '\x7b' := Option.some.inj hhead
    exact extract_balanced_core_spec rest

/-- Witness for C9: extracting from index 2 of `ab\x7b"k": "\"\x7d"\x7dxx` returns the
12-character balanced object (the `\x7d` inside the string literal and the
escaped quote are skipped), satisfying the minimal-balanced-prefix
characterization. -/
theorem c9_witness :
    ∃ n, 1 ≤ n ∧ n ≤ (("ab\x7b\"k\": \"\\\"\x7d\"\x7dxx".data).drop 2).length ∧
      "\x7b\"k\": \"\\\"\x7d\"\x7d".data = (("ab\x7b\"k\": \"\\\"\x7d\"\x7dxx".data).drop 2).take n ∧
      (("ab\x7b\"k\": \"\\\"\x7d\"\x7dxx".data).drop 2).get? (n - 1) = some '\x7d' ∧
      depthAfter ((("ab\x7b\"k\": \"\\\"\x7d\"\x7dxx".data).drop 2).take n) = 0 ∧
      ∀ m, 1 ≤ m → m < n →
        depthAfter ((("ab\x7b\"k\": \"\\\"\x7d\"\x7dxx".data).drop 2).take m) ≠ 0 :=
  (c9_extract_balanced_json ("ab\x7b\"k\": \"\\\"\x7d\"\x7dxx".data) 2 rfl).1
    ("\x7b\"k\": \"\\\"\x7d\"\x7d".data) rfl

/-- Claim C2: whenever the page contains a `__NEXT_DATA__`-labeled script
element (leftmost regex match) whose stripped body is non-empty and parses as
a JSON mapping, `extract_embedded_state` returns exactly that parsed mapping —
whatever other embedding conventions are also present, since the labeled
script is the first stage of the priority chain. -/
theorem c2_next_data_priority (page body : List Char) (fs : List (String × JVal))
    (hfind : findNextDataBody page = some body)
    (hne : (strip body).isEmpty = false)
    (hparse : jloads (strip body) = some (JVal.obj fs)) :
    extract_embedded_state page = .ok (JVal.obj fs) := by
  have hL : _loads_json (strip body) "__NEXT_DATA__" = .ok (.obj fs) := by
    unfold _loads_json
    rw [hparse]
  unfold extract_embedded_state _extract_next_data_state
  rw [hfind]
  simp only [hne, Bool.false_eq_true, if_false, hL]

set_option maxRecDepth 400000 in
/-- Witness for C2: a page carrying an `application/json` script, the labeled
`__NEXT_DATA__` script, and a `__PRELOADED_STATE__` assignment; the labeled
script's object wins. -/
theorem c2_witness :
    extract_embedded_state
      ("<script type=\"application/json\">\x7b\"quotes\": 1\x7d</script>" ++
       "<script id=\"__NEXT_DATA__\">\x7b\"a\": 1\x7d</script>" ++
       "__PRELOADED_STATE__ = \x7b\"b\": 2\x7d").data =
      .ok (JVal.obj [("a", JVal.num 1 0)]) :=
  c2_next_data_priority _ ("\x7b\"a\": 1\x7d".data) [("a", JVal.num 1 0)] rfl rfl rfl

/-- Claim C7: a present-but-malformed `__NEXT_DATA__` script (empty or
unparsable body) makes the State Locator propagate an error; an absent marker
falls through silently to the next convention; the `__PRELOADED_STATE__`
assignment behaves the same way: absence of the regex match is the only
silent case, while a present marker with a failed brace-extraction or JSON
parse propagates an error, also through the whole chain when that stage is
reached. -/
theorem c7_malformed_markers_propagate :
    (∀ page body : List Char, findNextDataBody page = some body →
      ((strip body).isEmpty = true ∨
        (∃ e, _loads_json (strip body) "__NEXT_DATA__" = .error e)) →
      ∃ e, extract_embedded_state page = .error e) ∧
    (∀ page : List Char, findNextDataBody page = none →
      extract_embedded_state page = _state_stage_preloaded page) ∧
    (∀ page : List Char, searchAssignEnd "__PRELOADED_STATE__".data page = none →
      _extract_preloaded_state page = .ok none) ∧
    (∀ page : List Char, _extract_preloaded_state page = .ok none →
      _state_stage_preloaded page = _state_stage_rootapp page) ∧
    (∀ (page : List Char) (i : Nat), searchAssignEnd "__PRELOADED_STATE__".data page = some i →
      (findCharFrom page '\x7b' i = none ∨
       (∃ j msg, findCharFrom page '\x7b' i = some j ∧ _extract_balanced_json page j = .error msg) ∨
       (∃ j js e2, findCharFrom page '\x7b' i = some j ∧ _extract_balanced_json page j = .ok js ∧
         _loads_json js "__PRELOADED_STATE__" = .error e2)) →
      (∃ e, _extract_preloaded_state page = .error e) ∧
      (findNextDataBody page = none → ∃ e, extract_embedded_state page = .error e)) := by
  refine ⟨?_, ?_, ?_, ?_, ?_⟩
  · intro page body hfind hbad
    unfold extract_embedded_state _extract_next_data_state
    rw [hfind]
    rcases hbad with hemp | ⟨e, herr⟩
    · exact ⟨"__NEXT_DATA__ script tag found but empty.", by simp only [hemp, if_true]⟩
    · by_cases hemp2 : (strip body).isEmpty = true
      · exact ⟨"__NEXT_DATA__ script tag found but empty.", by simp only [hemp2, if_true]⟩
      · have hne : (strip body).isEmpty = false := by simpa using hemp2
        exact ⟨e, by simp only [hne, Bool.false_eq_true, if_false, herr]⟩
  · intro page h
    unfold extract_embedded_state _extract_next_data_state
    rw [h]
  · intro page h
    unfold _extract_preloaded_state
    rw [h]
  · intro page h
    unfold _state_stage_preloaded
    rw [h]
  · intro page i hs hbad
    have hperr : ∃ e, _extract_preloaded_state page = .error e := by
      unfold _extract_preloaded_state
      rcases hbad with hnone | ⟨j, msg, hj, hb⟩ | ⟨j, js, e2, hj, hb, hl⟩
      · simp only [hs, hnone]
        exact ⟨_, rfl⟩
      · simp only [hs, hj, hb]
        exact ⟨msg, rfl⟩
      · simp only [hs, hj, hb, hl]
        exact ⟨e2, rfl⟩
    refine ⟨hperr, ?_⟩
    intro hnf
    obtain ⟨e, he⟩ := hperr
    refine ⟨e, ?_⟩
    unfold extract_embedded_state _extract_next_data_state
    rw [hnf]
    unfold _state_stage_preloaded
    rw [he]

set_option maxRecDepth 400000 in
/-- Witness for C7 at concrete pages: an empty labeled script raises; a page
with no markers falls through both conventions silently; a
`__PRELOADED_STATE__` assignment not followed by any object raises, also
through the whole chain. -/
theorem c7_witness :
    (∃ e, extract_embedded_state "<script id=\"__NEXT_DATA__\"></script>".data = .error e) ∧
    extract_embedded_state "no markers".data = _state_stage_preloaded "no markers".data ∧
    _extract_preloaded_state "no markers".data = .ok none ∧
    _state_stage_preloaded "no markers".data = _state_stage_rootapp "no markers".data ∧
    (∃ e, _extract_preloaded_state "__PRELOADED_STATE__ = 5;".data = .error e) ∧
    (∃ e, extract_embedded_state "__PRELOADED_STATE__ = 5;".data = .error e) := by
  refine ⟨?_, ?_, ?_, ?_, ?_, ?_⟩
  · exact c7_malformed_markers_propagate.1 _ [] rfl (Or.inl rfl)
  · exact c7_malformed_markers_propagate.2.1 _ rfl
  · exact c7_malformed_markers_propagate.2.2.1 _ rfl
  · exact c7_malformed_markers_propagate.2.2.2.1 _ rfl
  · exact (c7_malformed_markers_propagate.2.2.2.2 ("__PRELOADED_STATE__ = 5;".data) 22 rfl
      (Or.inl rfl)).1
  · exact (c7_malformed_markers_propagate.2.2.2.2 ("__PRELOADED_STATE__ = 5;".data) 22 rfl
      (Or.inl rfl)).2 rfl


theorem jsize_pos (v : JVal) : 1 ≤ jsize v := by
  cases v <;> simp [jsize]

theorem stackSize_cons (v : JVal) (p : List JKey) (rest : List (JVal × List JKey)) :
    stackSize ((v, p) :: rest) = jsize v + stackSize rest := by
  simp [stackSize]

theorem stackSize_append (a b : List (JVal × List JKey)) :
    stackSize (a ++ b) = stackSize a + stackSize b := by
  simp [stackSize]

theorem stackSize_reverse (a : List (JVal × List JKey)) :
    stackSize a.reverse = stackSize a := by
  simp [stackSize, List.sum_reverse]

theorem stackSize_fields_le (fs : List (String × JVal)) (path : List JKey) :
    stackSize (fs.filterMap (fun kv =>
      if isContainer kv.2 then some (kv.2, path ++ [JKey.s kv.1]) else none)) ≤ jsizeF fs := by
  induction fs with
  | nil => simp [stackSize]
  | cons kv t ih =>
    obtain ⟨k, v⟩ := kv
    rw [List.filterMap_cons, jsizeF]
    by_cases hc : isContainer v = true
    · simp only [hc, if_true]
      rw [stackSize_cons]
      omega
    · simp only [hc, Bool.false_eq_true, if_false]
      omega

theorem stackSize_enumFrom_le (xs : List JVal) (path : List JKey) : ∀ n : Nat,
    stackSize ((List.enumFrom n xs).filterMap (fun p =>
      if isContainer p.2 then some (p.2, path ++ [JKey.i p.1]) else none)) ≤ jsizeL xs := by
  induction xs with
  | nil => intro n; simp [stackSize]
  | cons v t ih =>
    intro n
    rw [List.enumFrom_cons, List.filterMap_cons, jsizeL]
    by_cases hc : isContainer v = true
    · simp only [hc, if_true]
      rw [stackSize_cons]
      have := ih (n + 1)
      omega
    · simp only [hc, Bool.false_eq_true, if_false]
      have := ih (n + 1)
      omega

theorem findLoopF_stable : ∀ (f g : Nat) (stack : List (JVal × List JKey)),
    stackSize stack < f → stackSize stack < g → findLoopF f stack = findLoopF g stack := by
  intro f
  induction f with
  | zero =>
    intro g stack hf _
    omega
  | succ f ih =>
    intro g stack hf hg
    cases g with
    | zero => omega
    | succ g =>
      cases stack with
      | nil => rfl
      | cons e rest =>
        obtain ⟨node, path⟩ := e
        have hpos := jsize_pos node
        have hsz := stackSize_cons node path rest
        cases node with
        | obj fs =>
          rw [findLoopF, findLoopF]
          have hch := stackSize_fields_le fs path
          have hsz2 : stackSize
              (((fs.filterMap (fun kv =>
                if isContainer kv.2 then some (kv.2, path ++ [JKey.s kv.1]) else none)).reverse
                ++ rest)) ≤ jsizeF fs + stackSize rest := by
            rw [stackSize_append, stackSize_reverse]
            omega
          have hobj : jsize (JVal.obj fs) = 1 + jsizeF fs := by rw [jsize]
          by_cases hd : path.length > 16
          · rw [if_pos hd, if_pos hd]
            exact ih g rest (by omega) (by omega)
          · rw [if_neg hd, if_neg hd]
            rw [ih g _ (by omega) (by omega)]
        | arr xs =>
          rw [findLoopF, findLoopF]
          have hch : stackSize ((xs.enum).filterMap (fun p =>
              if isContainer p.2 then some (p.2, path ++ [JKey.i p.1]) else none)) ≤ jsizeL xs := by
            rw [List.enum]
            exact stackSize_enumFrom_le xs path 0
          have hsz2 : stackSize
              ((((xs.enum).filterMap (fun p =>
                if isContainer p.2 then some (p.2, path ++ [JKey.i p.1]) else none)).reverse
                ++ rest)) ≤ jsizeL xs + stackSize rest := by
            rw [stackSize_append, stackSize_reverse]
            omega
          have harr : jsize (JVal.arr xs) = 1 + jsizeL xs := by rw [jsize]
          by_cases hd : path.length > 16
          · rw [if_pos hd, if_pos hd]
            exact ih g rest (by omega) (by omega)
          · rw [if_neg hd, if_neg hd]
            exact ih g _ (by omega) (by omega)
        | null =>
          rw [findLoopF, findLoopF]
          all_goals try (intro _ heq; exact JVal.noConfusion heq)
          by_cases hd : path.length > 16
          · rw [if_pos hd, if_pos hd]
            exact ih g rest (by omega) (by omega)
          · rw [if_neg hd, if_neg hd]
            exact ih g rest (by omega) (by omega)
        | bool b =>
          rw [findLoopF, findLoopF]
          all_goals try (intro _ heq; exact JVal.noConfusion heq)
          by_cases hd : path.length > 16
          · rw [if_pos hd, if_pos hd]
            exact ih g rest (by omega) (by omega)
          · rw [if_neg hd, if_neg hd]
            exact ih g rest (by omega) (by omega)
        | num m e2 =>
          rw [findLoopF, findLoopF]
          all_goals try (intro _ heq; exact JVal.noConfusion heq)
          by_cases hd : path.length > 16
          · rw [if_pos hd, if_pos hd]
            exact ih g rest (by omega) (by omega)
          · rw [if_neg hd, if_neg hd]
            exact ih g rest (by omega) (by omega)
        | str s =>
          rw [findLoopF, findLoopF]
          all_goals try (intro _ heq; exact JVal.noConfusion heq)
          by_cases hd : path.length > 16
          · rw [if_pos hd, if_pos hd]
            exact ih g rest (by omega) (by omega)
          · rw [if_neg hd, if_neg hd]
            exact ih g rest (by omega) (by omega)

/-- The fuel passed by `_find_quote_lists` is irrelevant: any strictly larger
fuel computes the same candidate list, so the fuel-driven loop is a faithful
rendering of the Python `while stack:` loop. -/
theorem find_quote_lists_fuel_irrelevant (data : JVal) (base : List JKey) (extra : Nat) :
    findLoopF (jsize data + 1 + extra) [(data, base)] = _find_quote_lists data base := by
  unfold _find_quote_lists
  apply findLoopF_stable
  · rw [stackSize_cons]
    have h0 : stackSize ([] : List (JVal × List JKey)) = 0 := rfl
    omega
  · rw [stackSize_cons]
    have h0 : stackSize ([] : List (JVal × List JKey)) = 0 := rfl
    omega

theorem scanFirst_payload {α : Type} (f : List Char → Option α) :
    ∀ (cs : List Char) (i : Nat) (a : α), scanFirst f cs = some (i, a) → f (cs.drop i) = some a := by
  intro cs
  induction cs with
  | nil =>
    intro i a h
    rw [scanFirst] at h
    cases hf : f [] with
    | none => rw [hf] at h; exact Option.noConfusion h
    | some b =>
      rw [hf] at h
      have h2 := Option.some.inj h
      have hi : 0 = i := congrArg Prod.fst h2
      have ha : b = a := congrArg Prod.snd h2
      rw [← hi, ← ha]
      exact hf
  | cons c rest ih =>
    intro i a h
    rw [scanFirst] at h
    cases hf : f (c :: rest) with
    | some b =>
      rw [hf] at h
      have h2 := Option.some.inj h
      have hi : 0 = i := congrArg Prod.fst h2
      have ha : b = a := congrArg Prod.snd h2
      rw [← hi, ← ha]
      exact hf
    | none =>
      rw [hf] at h
      cases hs : scanFirst f rest with
      | none => rw [hs] at h; exact Option.noConfusion h
      | some p =>
        obtain ⟨j, b⟩ := p
        rw [hs] at h
        have h2 := Option.some.inj h
        have hi : j + 1 = i := congrArg Prod.fst h2
        have ha : b = a := congrArg Prod.snd h2
        rw [← hi, ← ha]
        exact ih j b hs

theorem matchScriptTagAt_pos (u : List Char) (t : List Char × List Char × Nat)
    (h : matchScriptTagAt u = some t) : 1 ≤ t.2.2 := by
  unfold matchScriptTagAt at h
  dsimp only at h
  split at h
  · split at h
    · split at h
      · cases h
        dsimp only
        omega
      · exact Option.noConfusion h
    · exact Option.noConfusion h
  · exact Option.noConfusion h

theorem matchAttrAt_pos (q : Char) (u : List Char) (t : (String × String) × Nat)
    (h : matchAttrAt q u = some t) : 1 ≤ t.2 := by
  unfold matchAttrAt at h
  dsimp only at h
  split at h
  · exact Option.noConfusion h
  · split at h
    · split at h
      · split at h
        · split at h
          · cases h
            dsimp only
            omega
          · exact Option.noConfusion h
        · exact Option.noConfusion h
      · exact Option.noConfusion h
    · exact Option.noConfusion h

theorem iterTagsF_stable : ∀ (f g : Nat) (cs : List Char), cs.length < f → cs.length < g →
    iterTagsF f cs = iterTagsF g cs := by
  intro f
  induction f with
  | zero =>
    intro g cs hf _
    omega
  | succ f ih =>
    intro g cs hf hg
    cases g with
    | zero => omega
    | succ g =>
      rw [iterTagsF, iterTagsF]
      cases hscan : scanFirst matchScriptTagAt cs with
      | none => rfl
      | some p =>
        obtain ⟨i, a, b, mlen⟩ := p
        have hpay := scanFirst_payload matchScriptTagAt cs i (a, b, mlen) hscan
        have hpos : 1 ≤ mlen := matchScriptTagAt_pos _ (a, b, mlen) hpay
        have hne : cs ≠ [] := by
          intro hcs
          rw [hcs] at hscan
          rw [show scanFirst matchScriptTagAt [] = none from rfl] at hscan
          exact Option.noConfusion hscan
        have hlen : (cs.drop (i + mlen)).length < cs.length := by
          rw [List.length_drop]
          have h1 : 1 ≤ cs.length := by
            cases cs with
            | nil => exact absurd rfl hne
            | cons x tl => simp
          omega
        simp only [hscan]
        rw [ih g (cs.drop (i + mlen)) (by omega) (by omega)]

/-- The fuel passed by `_iter_script_tags` is irrelevant: the scan advances at
least one character per emitted tag. -/
theorem iter_script_tags_fuel_irrelevant (page : List Char) (extra : Nat) :
    iterTagsF (page.length + 1 + extra) page = _iter_script_tags page := by
  unfold _iter_script_tags
  apply iterTagsF_stable <;> omega

theorem iterAttrsF_stable (q : Char) : ∀ (f g : Nat) (cs : List Char),
    cs.length < f → cs.length < g → iterAttrsF q f cs = iterAttrsF q g cs := by
  intro f
  induction f with
  | zero =>
    intro g cs hf _
    omega
  | succ f ih =>
    intro g cs hf hg
    cases g with
    | zero => omega
    | succ g =>
      rw [iterAttrsF, iterAttrsF]
      cases hscan : scanFirst (matchAttrAt q) cs with
      | none => rfl
      | some p =>
        obtain ⟨i, kv, len⟩ := p
        have hpay := scanFirst_payload (matchAttrAt q) cs i (kv, len) hscan
        have hpos : 1 ≤ len := matchAttrAt_pos q _ (kv, len) hpay
        have hne : cs ≠ [] := by
          intro hcs
          rw [hcs] at hscan
          rw [show scanFirst (matchAttrAt q) [] = none from rfl] at hscan
          exact Option.noConfusion hscan
        have hlen : (cs.drop (i + len)).length < cs.length := by
          rw [List.length_drop]
          have h1 : 1 ≤ cs.length := by
            cases cs with
            | nil => exact absurd rfl hne
            | cons x tl => simp
          omega
        simp only [hscan]
        rw [ih g (cs.drop (i + len)) (by omega) (by omega)]

theorem natDigitsF_stable : ∀ (f g n : Nat), n < f → n < g → natDigitsF f n = natDigitsF g n := by
  intro f
  induction f with
  | zero =>
    intro g n hf _
    omega
  | succ f ih =>
    intro g n hf hg
    cases g with
    | zero => omega
    | succ g =>
      rw [natDigitsF, natDigitsF]
      by_cases hn : n < 10
      · rw [if_pos hn, if_pos hn]
      · rw [if_neg hn, if_neg hn]
        have hdiv : n / 10 < n := Nat.div_lt_self (by omega) (by omega)
        rw [ih g (n / 10) (by omega) (by omega)]
